import Mathlib

/-!
Verification of the frame fragmentation/reassembly protocol of the
`my_trans` repository.

The receiver side (`zmq_receive/LidarReceiver.py`) is modelled as an
explicit state machine: `RState` holds the reassembly buffer (a Python
dict, modelled as an insertion-ordered association list with unique
keys), the two high-water marks `current_collecting_fid` and
`last_processed_fid`, plus ghost logs of the acknowledgments sent and
the frames emitted to the application.  One iteration of the receive
loop on a successfully unpacked message is `rstep`.

The sender side (`zmq_send/LidarSender.py`) is modelled by
`sendFrameMsgs` (the fragmentation of one point-cloud frame into wire
messages) and `ack_listener_step` (one iteration of the ACK thread on a
received acknowledgment).

The single-packet path's sequence/loss detector (`main_receive.py`) is
`on_packet_received`, and the loss-rate report
(`rtt_tracker.py, RTTTracker.get_loss_rate`) is `get_loss_rate`.

Byte strings are modelled as `List Nat` (one entry per byte); nothing
in the protocol logic inspects byte values, only concatenation order.
-/

/-- Raw byte strings on the wire, one `Nat` per byte. -/
abbrev Bytes := List Nat

/-- The `frag_info` sub-dictionary of a PCD chunk message
(`LidarSender.py`, path B of `send_frame`). -/
structure FragInfo where
  total_chunks : Nat
  chunk_index : Nat
  dtype : String
  shape_rows : Nat
  shape_dim : Nat
deriving DecidableEq

/-- One successfully unpacked wire message, as read by the receiver
loop (`LidarReceiver.run`, step 2).  `frag_info = none` is the JSON
single-packet path; `frag_info = some _` is a PCD chunk. -/
structure Msg where
  frame_id : Int
  marker : Bool
  frag_info : Option FragInfo
  json_data : Bytes
  pcd_chunk_bytes : Bytes
deriving DecidableEq

/-- One value of the receiver's `reassembly_buffer` dict.  `chunks` is
itself a Python dict `chunk_index → bytes`, modelled as an
insertion-ordered association list with unique keys. -/
inductive Entry where
  | json (data : Bytes)
  | pcd (total : Nat) (dtype : String) (shape_dim : Nat) (chunks : List (Nat × Bytes))
deriving DecidableEq

/-- Receiver state (`LidarReceiver.__init__`), plus two ghost logs:
`acks` records every `send_ack(frame_id)` call in order, and `emitted`
records every `process_frame_data(frame_id, data)` call in order. -/
structure RState where
  reassembly_buffer : List (Int × Entry)
  current_collecting_fid : Int
  last_processed_fid : Int
  acks : List Int
  emitted : List (Int × Entry)
deriving DecidableEq

/-- Initial receiver state: empty buffer, both frame-id marks `-1`. -/
def initState : RState :=
  { reassembly_buffer := []
    current_collecting_fid := -1
    last_processed_fid := -1
    acks := []
    emitted := [] }

/-- Dict lookup on the buffer (first entry with the key). -/
def bufGet (b : List (Int × Entry)) (fid : Int) : Option Entry :=
  (b.find? (fun p => p.1 == fid)).map Prod.snd

/-- Dict key removal on the buffer. -/
def bufRemove (b : List (Int × Entry)) (fid : Int) : List (Int × Entry) :=
  b.filter (fun p => !(p.1 == fid))

/-- Keys of the buffer in insertion order (`dict.keys()`). -/
def bufKeys (b : List (Int × Entry)) : List Int :=
  b.map Prod.fst

/-- `LidarReceiver.process_and_clear_frame`: if `fid` is buffered, pop
its entry, hand it to `process_frame_data` (logged in `emitted`), send
one ACK (logged in `acks`), and advance `last_processed_fid` to
`max last_processed_fid fid`; otherwise do nothing. -/
def process_and_clear_frame (s : RState) (fid : Int) : RState :=
  match bufGet s.reassembly_buffer fid with
  | none => s
  | some e =>
    { reassembly_buffer := bufRemove s.reassembly_buffer fid
      current_collecting_fid := s.current_collecting_fid
      last_processed_fid := max s.last_processed_fid fid
      acks := s.acks ++ [fid]
      emitted := s.emitted ++ [(fid, e)] }

/-- Insert a chunk into an entry's `chunks` dict, first-write-wins
(`if chunk_index not in ...["chunks"]`); a JSON entry has no
`"chunks"` key, so it is left unchanged. -/
def addChunk (e : Entry) (ci : Nat) (bs : Bytes) : Entry :=
  match e with
  | Entry.json d => Entry.json d
  | Entry.pcd t dt sd cs =>
      Entry.pcd t dt sd (if cs.any (fun q => q.1 == ci) then cs else cs ++ [(ci, bs)])

/-- Apply `addChunk` to the entry stored under `fid`, if any. -/
def updateChunks (b : List (Int × Entry)) (fid : Int) (ci : Nat) (bs : Bytes) :
    List (Int × Entry) :=
  b.map (fun p => if p.1 == fid then (p.1, addChunk p.2 ci bs) else p)

/-- Step 5 of `LidarReceiver.run` ("将当前包存入缓冲区"): create the
buffer entry on first contact (JSON value, or PCD header with an empty
`chunks` dict), then, for a PCD message, store the chunk bytes under
`chunk_index` unless that index is already present. -/
def storeMsg (s : RState) (m : Msg) : RState :=
  match m.frag_info with
  | none =>
      if (bufGet s.reassembly_buffer m.frame_id).isSome then s
      else { s with reassembly_buffer :=
               s.reassembly_buffer ++ [(m.frame_id, Entry.json m.json_data)] }
  | some fi =>
      let s1 :=
        if (bufGet s.reassembly_buffer m.frame_id).isSome then s
        else { s with reassembly_buffer :=
                 s.reassembly_buffer ++
                   [(m.frame_id, Entry.pcd fi.total_chunks fi.dtype fi.shape_dim [])] }
      { s1 with reassembly_buffer :=
          updateChunks s1.reassembly_buffer m.frame_id fi.chunk_index m.pcd_chunk_bytes }

/-- `MAX_FRAME_LAG = 5` (`LidarReceiver.py`, module constant). -/
def MAX_FRAME_LAG : Nat := 5

/-- `min(self.reassembly_buffer.keys())` for a nonempty buffer. -/
def minKey : List (Int × Entry) → Int
  | [] => 0
  | p :: r => r.foldl (fun m q => min m q.1) p.1

/-- Fuel-indexed form of the overflow-protection loop; each iteration
strictly shrinks the buffer, so fuel `≥ buffer length` is enough to
reach the exit condition. -/
def evictLoopFuel : Nat → RState → RState
  | 0, s => s
  | fuel + 1, s =>
    if MAX_FRAME_LAG < s.reassembly_buffer.length then
      evictLoopFuel fuel (process_and_clear_frame s (minKey s.reassembly_buffer))
    else s

/-- Step 7 of `LidarReceiver.run` ("缓冲区溢出保护"): while more than
`MAX_FRAME_LAG` frames are buffered, finalize the one with the
smallest `frame_id`. -/
def evictLoop (s : RState) : RState :=
  evictLoopFuel s.reassembly_buffer.length s

/-- The key loop of the "next-frame" trigger
(`for fid in list(self.reassembly_buffer.keys()): if fid < frame_id:
process_and_clear_frame(fid)`), over a snapshot `ks` of the keys. -/
def flushOlder (s : RState) (bound : Int) (ks : List Int) : RState :=
  ks.foldl
    (fun acc fid => if fid < bound then process_and_clear_frame acc fid else acc) s

/-- Step 4 of `LidarReceiver.run` ("下一帧触发"): if the message's
`frame_id` is larger than `current_collecting_fid`, finalize the
currently collecting frame (when one exists), then every buffered
frame with a smaller id (iterating over a snapshot of the keys), then
move `current_collecting_fid` forward to `frame_id`. -/
def trigger_next (s : RState) (m : Msg) : RState :=
  if s.current_collecting_fid < m.frame_id then
    let sa :=
      if s.current_collecting_fid ≠ -1 then
        process_and_clear_frame s s.current_collecting_fid
      else s
    let sb := flushOlder sa m.frame_id (bufKeys sa.reassembly_buffer)
    { sb with current_collecting_fid := m.frame_id }
  else s

/-- Step 5 guard: chunks are stored only for the currently collecting
frame. -/
def store_step (s : RState) (m : Msg) : RState :=
  if m.frame_id == s.current_collecting_fid then storeMsg s m else s

/-- Step 6 of `LidarReceiver.run` ("完整性触发"): a terminal marker on
the currently collecting frame finalizes it immediately;
`current_collecting_fid` is left unchanged. -/
def marker_step (s : RState) (m : Msg) : RState :=
  if m.marker && (m.frame_id == s.current_collecting_fid) then
    process_and_clear_frame s m.frame_id
  else s

/-- Steps 4–6 of `LidarReceiver.run` on a non-stale message. -/
def rstep_body (s : RState) (m : Msg) : RState :=
  marker_step (store_step (trigger_next s m) m) m

/-- One full iteration of `LidarReceiver.run` on a successfully
unpacked message: staleness filter (step 3), then steps 4–6, then the
overflow-protection loop (step 7). -/
def rstep (s : RState) (m : Msg) : RState :=
  if m.frame_id ≤ s.last_processed_fid then s
  else evictLoop (rstep_body s m)

/-- Reachable receiver states: `initState`, closed under `rstep`. -/
inductive Reach : RState → Prop where
  | start : Reach initState
  | step {s : RState} (m : Msg) : Reach s → Reach (rstep s m)

/-- Insert into a sorted list of keys (model of Python `sorted`). -/
def insertSorted (x : Nat) : List Nat → List Nat
  | [] => [x]
  | y :: ys => if x ≤ y then x :: y :: ys else y :: insertSorted x ys

/-- Insertion sort on chunk indices (model of Python `sorted`). -/
def sortKeys : List Nat → List Nat
  | [] => []
  | x :: xs => insertSorted x (sortKeys xs)

/-- Dict lookup `chunks[i]` (defaulting to `[]`, never hit on real
dict states where every sorted key is present). -/
def lookupChunk (cs : List (Nat × Bytes)) (i : Nat) : Bytes :=
  ((cs.find? (fun q => q.1 == i)).map Prod.snd).getD []

/-- The observable result of `LidarReceiver.process_frame_data` on a
PCD entry: the reassembled payload plus the completeness tag derived
from `received_chunks` vs `total_chunks`. -/
structure FrameResult where
  payload : Bytes
  received_chunks : Nat
  total_chunks : Nat
  complete : Bool
deriving DecidableEq

/-- `LidarReceiver.process_frame_data` on a buffer entry.  For a PCD
entry it concatenates the stored chunk bytes in ascending
`chunk_index` order (`for i in sorted(chunks.keys())`), skipping
nothing and zero-filling nothing; with an empty `chunks` dict it
returns early with no result.  The JSON path produces no PCD result. -/
def process_frame_data : Entry → Option FrameResult
  | Entry.json _ => none
  | Entry.pcd total _ _ chunks =>
      if chunks.isEmpty then none
      else
        some { payload := ((sortKeys (chunks.map Prod.fst)).map
                 (fun i => lookupChunk chunks i)).flatten
               received_chunks := chunks.length
               total_chunks := total
               complete := decide (total ≤ chunks.length) }

/-- `POINTS_PER_CHUNK = 500` (`LidarSender.py`, module constant). -/
def POINTS_PER_CHUNK : Nat := 500

/-- The fragmentation performed by `LidarSender.send_frame` on the PCD
path: the frame's rows (each row already serialized to its byte
string) are cut into `⌈N / POINTS_PER_CHUNK⌉` contiguous slices
`combined_array[start:end]`; chunk `i` carries the slice's bytes, its
`frag_info`, and `marker = (i == total_chunks - 1)`. -/
def sendFrameMsgs (fid : Int) (rows : List Bytes) (dtype : String) (width : Nat) :
    List Msg :=
  let total_points := rows.length
  let total_chunks := (total_points + POINTS_PER_CHUNK - 1) / POINTS_PER_CHUNK
  (List.range total_chunks).map (fun i =>
    let start := i * POINTS_PER_CHUNK
    let stop := min ((i + 1) * POINTS_PER_CHUNK) total_points
    let chunk_rows := (rows.drop start).take (stop - start)
    { frame_id := fid
      marker := i == total_chunks - 1
      frag_info := some { total_chunks := total_chunks
                          chunk_index := i
                          dtype := dtype
                          shape_rows := chunk_rows.length
                          shape_dim := width }
      json_data := []
      pcd_chunk_bytes := chunk_rows.flatten })

/-- Producer-side feedback state (`LidarSender`): the pending-ack map
`sent_timestamps : frame_id → send_time` and the list of collected RTT
samples.  Time is in abstract monotonic ticks. -/
structure SenderState where
  sent_timestamps : List (Int × Int)
  rtt_records_ms : List Int
deriving DecidableEq

/-- Lookup in the pending-ack map. -/
def tsGet (ts : List (Int × Int)) (fid : Int) : Option Int :=
  (ts.find? (fun p => p.1 == fid)).map Prod.snd

/-- Key removal (`dict.pop`) on the pending-ack map. -/
def tsRemove (ts : List (Int × Int)) (fid : Int) : List (Int × Int) :=
  ts.filter (fun p => !(p.1 == fid))

/-- One iteration of `LidarSender._ack_listener` on an unpacked ACK:
if `ack_frame_id` is present and in `sent_timestamps`, pop its send
time and record `rtt = (now - send_time) * 1000`; otherwise ignore. -/
def ack_listener_step (s : SenderState) (now : Int) (ack_frame_id : Option Int) :
    SenderState :=
  match ack_frame_id with
  | none => s
  | some a =>
      match tsGet s.sent_timestamps a with
      | none => s
      | some send_time =>
          { sent_timestamps := tsRemove s.sent_timestamps a
            rtt_records_ms := s.rtt_records_ms ++ [(now - send_time) * 1000] }

/-- Sequence/loss detector state of the single-packet path
(`main_receive.py`, module globals). -/
structure DetState where
  last_seq : Int
  total_received : Nat
  total_bytes : Nat
  total_lost_frames : Int
deriving DecidableEq

/-- Initial detector state: `last_seq = -1`, counters zero. -/
def detInit : DetState :=
  { last_seq := -1, total_received := 0, total_bytes := 0, total_lost_frames := 0 }

/-- The counter updates of `on_packet_received` (`main_receive.py`):
a sequence at or below `last_seq` is discarded with no state change;
otherwise the receive counters advance, a gap `s − last_seq − 1 > 0`
is added to `total_lost_frames`, and `last_seq` is set to `s`. -/
def on_packet_received (s : DetState) (sequence : Int) (packet_size : Nat) :
    DetState :=
  if sequence ≤ s.last_seq then s
  else
    { last_seq := sequence
      total_received := s.total_received + 1
      total_bytes := s.total_bytes + packet_size
      total_lost_frames := s.total_lost_frames +
        (if s.last_seq + 1 < sequence then sequence - s.last_seq - 1 else 0) }

/-- `RTTTracker.get_loss_rate` (`rtt_tracker.py`): `0.0` when
`receiver_last_seq == 0`, otherwise
`receiver_lost / (receiver_last_seq + 1) * 100` (a percentage). -/
def get_loss_rate (receiver_last_seq : Nat) (receiver_lost : Nat) : ℚ :=
  if receiver_last_seq = 0 then 0
  else ((receiver_lost : ℚ) / ((receiver_last_seq : ℚ) + 1)) * 100

/-! ### Basic lemmas about the buffer operations -/

/-- The invariant that makes the receiver's buffer trivial: at every
reachable state it holds at most one entry, and that entry's key is
`current_collecting_fid`. -/
structure RInv (s : RState) : Prop where
  keys_eq : ∀ p ∈ s.reassembly_buffer, p.1 = s.current_collecting_fid
  len_le : s.reassembly_buffer.length ≤ 1
  last_ge : (-1 : Int) ≤ s.last_processed_fid
  nil_of_none : s.current_collecting_fid = -1 → s.reassembly_buffer = []

/-- The receiver state while collecting one PCD frame `fid` from a
fresh start: one buffer entry, `current_collecting_fid = fid`, nothing
finalized yet. -/
def collectState (fid : Int) (T : Nat) (dt : String) (w : Nat)
    (cs : List (Nat × Bytes)) : RState :=
  { reassembly_buffer := [(fid, Entry.pcd T dt w cs)]
    current_collecting_fid := fid
    last_processed_fid := -1
    acks := []
    emitted := [] }

/-- The byte payload of chunk `i` of a frame: the contiguous slice
`combined_array[start:end].tobytes()`. -/
def chunkPayload (rows : List Bytes) (i : Nat) : Bytes :=
  ((rows.drop (i * POINTS_PER_CHUNK)).take
    (min ((i + 1) * POINTS_PER_CHUNK) rows.length - i * POINTS_PER_CHUNK)).flatten

/-- The wire message of chunk `i` of a frame. -/
def chunkMsg (fid : Int) (rows : List Bytes) (dtype : String) (w : Nat)
    (i : Nat) : Msg :=
  { frame_id := fid
    marker := i == (rows.length + POINTS_PER_CHUNK - 1) / POINTS_PER_CHUNK - 1
    frag_info := some
      { total_chunks := (rows.length + POINTS_PER_CHUNK - 1) / POINTS_PER_CHUNK
        chunk_index := i
        dtype := dtype
        shape_rows := ((rows.drop (i * POINTS_PER_CHUNK)).take
          (min ((i + 1) * POINTS_PER_CHUNK) rows.length -
            i * POINTS_PER_CHUNK)).length
        shape_dim := w }
    json_data := []
    pcd_chunk_bytes := chunkPayload rows i }

/-! ## Lemmas and claim theorems -/

theorem bufGet_isSome_of_mem_keys {b : List (Int × Entry)} {fid : Int}
    (h : fid ∈ bufKeys b) : (bufGet b fid).isSome := by
  rcases List.mem_map.mp h with ⟨p, hp, hfst⟩
  have hfind : (b.find? (fun p => p.1 == fid)).isSome :=
    List.find?_isSome.mpr ⟨p, hp, by simp [hfst]⟩
  simpa [bufGet] using hfind

theorem length_bufRemove_lt {b : List (Int × Entry)} {fid : Int}
    (h : fid ∈ bufKeys b) : (bufRemove b fid).length < b.length := by
  rcases List.mem_map.mp h with ⟨p, hp, hfst⟩
  refine List.length_filter_lt_length_iff_exists.mpr ⟨p, hp, ?_⟩
  simp [hfst]

theorem length_pcf_lt {s : RState} {fid : Int}
    (h : fid ∈ bufKeys s.reassembly_buffer) :
    (process_and_clear_frame s fid).reassembly_buffer.length <
      s.reassembly_buffer.length := by
  have hs := bufGet_isSome_of_mem_keys h
  unfold process_and_clear_frame
  cases hg : bufGet s.reassembly_buffer fid with
  | none => rw [hg] at hs; simp at hs
  | some e => simpa using length_bufRemove_lt h

theorem minKey_mem {b : List (Int × Entry)} (h : b ≠ []) :
    minKey b ∈ bufKeys b := by
  match b with
  | p :: r =>
    suffices hgen : ∀ (r : List (Int × Entry)) (a : Int),
        r.foldl (fun m q => min m q.1) a = a ∨
          r.foldl (fun m q => min m q.1) a ∈ bufKeys r by
      rcases hgen r p.1 with he | he
      · simp [minKey, he, bufKeys]
      · simp only [minKey, bufKeys, List.map_cons, List.mem_cons]
        exact Or.inr he
    intro r
    induction r with
    | nil => intro a; left; rfl
    | cons q t iht =>
      intro a
      rcases iht (min a q.1) with he | he
      · rcases le_or_lt a q.1 with hle | hlt
        · left; simp only [List.foldl_cons, he]; omega
        · right
          simp only [List.foldl_cons, he, bufKeys, List.map_cons, List.mem_cons]
          left; omega
      · right
        simp only [List.foldl_cons, bufKeys, List.map_cons, List.mem_cons]
        right; simpa [bufKeys] using he

theorem minKey_le {b : List (Int × Entry)} {k : Int} (hk : k ∈ bufKeys b) :
    minKey b ≤ k := by
  match b with
  | p :: r =>
    suffices hgen : ∀ (r : List (Int × Entry)) (a : Int),
        r.foldl (fun m q => min m q.1) a ≤ a ∧
          ∀ k ∈ bufKeys r, r.foldl (fun m q => min m q.1) a ≤ k by
      simp only [bufKeys, List.map_cons, List.mem_cons] at hk
      rcases hk with hk | hk
      · simpa [minKey, hk] using (hgen r k).1
      · exact (hgen r p.1).2 k (by simpa [bufKeys] using hk)
    intro r
    induction r with
    | nil => intro a; exact ⟨le_refl a, by simp [bufKeys]⟩
    | cons q t iht =>
      intro a
      obtain ⟨h1, h2⟩ := iht (min a q.1)
      refine ⟨by simp only [List.foldl_cons]; omega, ?_⟩
      intro k hk
      simp only [bufKeys, List.map_cons, List.mem_cons] at hk
      rcases hk with hk | hk
      · simp only [List.foldl_cons]
        have : min a q.1 ≤ k := by omega
        omega
      · exact h2 k (by simpa [bufKeys] using hk)

theorem evictLoopFuel_congr :
    ∀ (fuel fuel2 : Nat) (s : RState),
      s.reassembly_buffer.length ≤ fuel → s.reassembly_buffer.length ≤ fuel2 →
      evictLoopFuel fuel s = evictLoopFuel fuel2 s := by
  intro fuel
  induction fuel with
  | zero =>
    intro fuel2 s h1 h2
    have h0 : s.reassembly_buffer.length = 0 := by omega
    cases fuel2 with
    | zero => rfl
    | succ f2 =>
      show s = if MAX_FRAME_LAG < s.reassembly_buffer.length then _ else s
      rw [if_neg (by omega)]
  | succ f ih =>
    intro fuel2 s h1 h2
    cases fuel2 with
    | zero =>
      have h0 : s.reassembly_buffer.length = 0 := by omega
      show (if MAX_FRAME_LAG < s.reassembly_buffer.length then _ else s) = s
      rw [if_neg (by omega)]
    | succ f2 =>
      show (if MAX_FRAME_LAG < s.reassembly_buffer.length then
              evictLoopFuel f (process_and_clear_frame s (minKey s.reassembly_buffer))
            else s) =
           (if MAX_FRAME_LAG < s.reassembly_buffer.length then
              evictLoopFuel f2 (process_and_clear_frame s (minKey s.reassembly_buffer))
            else s)
      by_cases hc : MAX_FRAME_LAG < s.reassembly_buffer.length
      · rw [if_pos hc, if_pos hc]
        have hlt : (process_and_clear_frame s
              (minKey s.reassembly_buffer)).reassembly_buffer.length <
            s.reassembly_buffer.length :=
          length_pcf_lt (minKey_mem (by intro he; rw [he] at hc; simp at hc))
        exact ih f2 _ (by omega) (by omega)
      · rw [if_neg hc, if_neg hc]

/-- The defining `while`-unfolding of `evictLoop`. -/
theorem evictLoop_eq (s : RState) :
    evictLoop s =
      if MAX_FRAME_LAG < s.reassembly_buffer.length then
        evictLoop (process_and_clear_frame s (minKey s.reassembly_buffer))
      else s := by
  by_cases hc : MAX_FRAME_LAG < s.reassembly_buffer.length
  · rw [if_pos hc]
    unfold evictLoop
    obtain ⟨n, hn⟩ : ∃ n, s.reassembly_buffer.length = n + 1 :=
      ⟨s.reassembly_buffer.length - 1, by omega⟩
    rw [hn]
    show (if MAX_FRAME_LAG < s.reassembly_buffer.length then
            evictLoopFuel n (process_and_clear_frame s (minKey s.reassembly_buffer))
          else s) = _
    rw [if_pos hc]
    have hlt : (process_and_clear_frame s
          (minKey s.reassembly_buffer)).reassembly_buffer.length <
        s.reassembly_buffer.length :=
      length_pcf_lt (minKey_mem (by intro he; rw [he] at hc; simp at hc))
    exact evictLoopFuel_congr n _ _ (by omega) (le_refl _)
  · rw [if_neg hc]
    unfold evictLoop
    cases hl : s.reassembly_buffer.length with
    | zero => rfl
    | succ n =>
      show (if MAX_FRAME_LAG < s.reassembly_buffer.length then _ else s) = s
      rw [if_neg hc]

theorem bufGet_eq_none_iff {b : List (Int × Entry)} {fid : Int} :
    bufGet b fid = none ↔ fid ∉ bufKeys b := by
  constructor
  · intro hn hm
    have := bufGet_isSome_of_mem_keys hm
    rw [hn] at this
    simp at this
  · intro hm
    unfold bufGet
    rw [List.find?_eq_none.mpr]
    · rfl
    · intro p hp
      simp only [beq_iff_eq]
      intro he
      exact hm (List.mem_map.mpr ⟨p, hp, he⟩)

theorem mem_bufKeys_bufRemove {b : List (Int × Entry)} {fid k : Int} :
    k ∈ bufKeys (bufRemove b fid) ↔ k ∈ bufKeys b ∧ k ≠ fid := by
  unfold bufKeys bufRemove
  constructor
  · intro h
    rcases List.mem_map.mp h with ⟨p, hp, hk⟩
    rcases List.mem_filter.mp hp with ⟨hpb, hpf⟩
    subst hk
    refine ⟨List.mem_map.mpr ⟨p, hpb, rfl⟩, ?_⟩
    simpa using hpf
  · rintro ⟨h, hne⟩
    rcases List.mem_map.mp h with ⟨p, hp, hk⟩
    subst hk
    exact List.mem_map.mpr ⟨p, List.mem_filter.mpr ⟨hp, by simpa using hne⟩, rfl⟩

/-! ### Lemmas about `process_and_clear_frame` -/

theorem pcf_current (s : RState) (fid : Int) :
    (process_and_clear_frame s fid).current_collecting_fid =
      s.current_collecting_fid := by
  unfold process_and_clear_frame
  cases bufGet s.reassembly_buffer fid <;> rfl

theorem pcf_last_mono (s : RState) (fid : Int) :
    s.last_processed_fid ≤ (process_and_clear_frame s fid).last_processed_fid := by
  unfold process_and_clear_frame
  cases bufGet s.reassembly_buffer fid with
  | none => exact le_refl _
  | some e => simp

theorem pcf_last_ge {s : RState} {fid : Int}
    (h : fid ∈ bufKeys s.reassembly_buffer) :
    fid ≤ (process_and_clear_frame s fid).last_processed_fid := by
  have hs := bufGet_isSome_of_mem_keys h
  unfold process_and_clear_frame
  cases hg : bufGet s.reassembly_buffer fid with
  | none => rw [hg] at hs; simp at hs
  | some e => simp

theorem pcf_emitted_mono {s : RState} {fid : Int} {x : Int × Entry}
    (h : x ∈ s.emitted) : x ∈ (process_and_clear_frame s fid).emitted := by
  unfold process_and_clear_frame
  cases bufGet s.reassembly_buffer fid with
  | none => exact h
  | some e => simp [h]

theorem pcf_acks_mono {s : RState} {fid a : Int}
    (h : a ∈ s.acks) : a ∈ (process_and_clear_frame s fid).acks := by
  unfold process_and_clear_frame
  cases bufGet s.reassembly_buffer fid with
  | none => exact h
  | some e => simp [h]

theorem pcf_keys_sub {s : RState} {fid k : Int}
    (h : k ∈ bufKeys (process_and_clear_frame s fid).reassembly_buffer) :
    k ∈ bufKeys s.reassembly_buffer := by
  unfold process_and_clear_frame at h
  cases hg : bufGet s.reassembly_buffer fid with
  | none => rw [hg] at h; exact h
  | some e =>
    rw [hg] at h
    exact (mem_bufKeys_bufRemove.mp h).1

theorem pcf_not_mem (s : RState) (fid : Int) :
    fid ∉ bufKeys (process_and_clear_frame s fid).reassembly_buffer := by
  unfold process_and_clear_frame
  cases hg : bufGet s.reassembly_buffer fid with
  | none =>
    exact bufGet_eq_none_iff.mp hg
  | some e =>
    intro h
    exact (mem_bufKeys_bufRemove.mp h).2 rfl

theorem pcf_keys_other {s : RState} {fid k : Int} (hne : k ≠ fid) :
    k ∈ bufKeys (process_and_clear_frame s fid).reassembly_buffer ↔
      k ∈ bufKeys s.reassembly_buffer := by
  unfold process_and_clear_frame
  cases hg : bufGet s.reassembly_buffer fid with
  | none => rfl
  | some e =>
    simp only
    rw [mem_bufKeys_bufRemove]
    exact ⟨fun h => h.1, fun h => ⟨h, hne⟩⟩

theorem pcf_mem_emitted {s : RState} {fid : Int}
    (h : fid ∈ bufKeys s.reassembly_buffer) :
    ∃ e, (fid, e) ∈ (process_and_clear_frame s fid).emitted := by
  have hs := bufGet_isSome_of_mem_keys h
  unfold process_and_clear_frame
  cases hg : bufGet s.reassembly_buffer fid with
  | none => rw [hg] at hs; simp at hs
  | some e => exact ⟨e, by simp⟩

/-! ### Lemmas about `flushOlder` -/

theorem flushOlder_current (bound : Int) :
    ∀ (ks : List Int) (s : RState),
      (flushOlder s bound ks).current_collecting_fid = s.current_collecting_fid := by
  intro ks
  induction ks with
  | nil => intro s; rfl
  | cons k t ih =>
    intro s
    show (flushOlder (if k < bound then process_and_clear_frame s k else s) bound t).current_collecting_fid = _
    rw [ih]
    by_cases hk : k < bound
    · rw [if_pos hk, pcf_current]
    · rw [if_neg hk]

theorem flushOlder_last_mono (bound : Int) :
    ∀ (ks : List Int) (s : RState),
      s.last_processed_fid ≤ (flushOlder s bound ks).last_processed_fid := by
  intro ks
  induction ks with
  | nil => intro s; exact le_refl _
  | cons k t ih =>
    intro s
    show s.last_processed_fid ≤
      (flushOlder (if k < bound then process_and_clear_frame s k else s) bound t).last_processed_fid
    refine le_trans ?_ (ih _)
    by_cases hk : k < bound
    · rw [if_pos hk]; exact pcf_last_mono s k
    · rw [if_neg hk]

theorem flushOlder_emitted_mono (bound : Int) :
    ∀ (ks : List Int) (s : RState) (x : Int × Entry),
      x ∈ s.emitted → x ∈ (flushOlder s bound ks).emitted := by
  intro ks
  induction ks with
  | nil => intro s x h; exact h
  | cons k t ih =>
    intro s x h
    show x ∈ (flushOlder (if k < bound then process_and_clear_frame s k else s) bound t).emitted
    refine ih _ x ?_
    by_cases hk : k < bound
    · rw [if_pos hk]; exact pcf_emitted_mono h
    · rw [if_neg hk]; exact h

theorem flushOlder_keys_sub (bound : Int) :
    ∀ (ks : List Int) (s : RState) (k : Int),
      k ∈ bufKeys (flushOlder s bound ks).reassembly_buffer →
        k ∈ bufKeys s.reassembly_buffer := by
  intro ks
  induction ks with
  | nil => intro s k h; exact h
  | cons q t ih =>
    intro s k h
    have h2 := ih _ k h
    dsimp only at h2
    by_cases hq : q < bound
    · rw [if_pos hq] at h2; exact pcf_keys_sub h2
    · rw [if_neg hq] at h2; exact h2

theorem flushOlder_handles (bound : Int) :
    ∀ (ks : List Int) (s : RState) (fid : Int),
      fid ∈ ks → fid < bound →
        fid ∉ bufKeys (flushOlder s bound ks).reassembly_buffer ∧
        (fid ∈ bufKeys s.reassembly_buffer →
          ∃ e, (fid, e) ∈ (flushOlder s bound ks).emitted) := by
  intro ks
  induction ks with
  | nil => intro s fid h; simp at h
  | cons q t ih =>
    intro s fid hmem hlt
    by_cases hq : fid = q
    · subst hq
      constructor
      · intro hcon
        have h2 := flushOlder_keys_sub bound t _ fid hcon
        dsimp only at h2
        rw [if_pos hlt] at h2
        exact pcf_not_mem s fid h2
      · intro hin
        rcases pcf_mem_emitted hin with ⟨e, he⟩
        refine ⟨e, ?_⟩
        have : (fid, e) ∈ (if fid < bound then process_and_clear_frame s fid else s).emitted := by
          rw [if_pos hlt]; exact he
        exact flushOlder_emitted_mono bound t _ _ this
    · have hmt : fid ∈ t := by
        rcases List.mem_cons.mp hmem with h | h
        · exact absurd h hq
        · exact h
      obtain ⟨h1, h2⟩ := ih (if q < bound then process_and_clear_frame s q else s) fid hmt hlt
      refine ⟨h1, ?_⟩
      intro hin
      refine h2 ?_
      by_cases hqb : q < bound
      · rw [if_pos hqb]
        exact (pcf_keys_other hq).mpr hin
      · rw [if_neg hqb]; exact hin

/-! ### Lemmas about `evictLoop` -/

theorem evictLoop_eq_self {s : RState}
    (h : s.reassembly_buffer.length ≤ MAX_FRAME_LAG) : evictLoop s = s := by
  rw [evictLoop_eq, if_neg (by omega)]

theorem evictLoopFuel_current :
    ∀ (fuel : Nat) (s : RState),
      (evictLoopFuel fuel s).current_collecting_fid = s.current_collecting_fid := by
  intro fuel
  induction fuel with
  | zero => intro s; rfl
  | succ f ih =>
    intro s
    show (if MAX_FRAME_LAG < s.reassembly_buffer.length then _
          else s).current_collecting_fid = _
    split
    · rw [ih, pcf_current]
    · rfl

theorem evictLoop_current (s : RState) :
    (evictLoop s).current_collecting_fid = s.current_collecting_fid :=
  evictLoopFuel_current _ s

theorem evictLoopFuel_last_mono :
    ∀ (fuel : Nat) (s : RState),
      s.last_processed_fid ≤ (evictLoopFuel fuel s).last_processed_fid := by
  intro fuel
  induction fuel with
  | zero => intro s; exact le_refl _
  | succ f ih =>
    intro s
    show s.last_processed_fid ≤
      (if MAX_FRAME_LAG < s.reassembly_buffer.length then _ else s).last_processed_fid
    split
    · exact le_trans (pcf_last_mono _ _) (ih _)
    · exact le_refl _

theorem evictLoop_last_mono (s : RState) :
    s.last_processed_fid ≤ (evictLoop s).last_processed_fid :=
  evictLoopFuel_last_mono _ s

theorem evictLoopFuel_emitted_mono :
    ∀ (fuel : Nat) (s : RState) (x : Int × Entry),
      x ∈ s.emitted → x ∈ (evictLoopFuel fuel s).emitted := by
  intro fuel
  induction fuel with
  | zero => intro s x h; exact h
  | succ f ih =>
    intro s x h
    show x ∈ (if MAX_FRAME_LAG < s.reassembly_buffer.length then _ else s).emitted
    split
    · exact ih _ x (pcf_emitted_mono h)
    · exact h

theorem evictLoop_emitted_mono {s : RState} {x : Int × Entry}
    (h : x ∈ s.emitted) : x ∈ (evictLoop s).emitted :=
  evictLoopFuel_emitted_mono _ s x h

theorem evictLoopFuel_keys_sub :
    ∀ (fuel : Nat) (s : RState) (k : Int),
      k ∈ bufKeys (evictLoopFuel fuel s).reassembly_buffer →
        k ∈ bufKeys s.reassembly_buffer := by
  intro fuel
  induction fuel with
  | zero => intro s k h; exact h
  | succ f ih =>
    intro s k h
    rw [show evictLoopFuel (f + 1) s =
          (if MAX_FRAME_LAG < s.reassembly_buffer.length then
            evictLoopFuel f (process_and_clear_frame s (minKey s.reassembly_buffer))
          else s) from rfl] at h
    split at h
    · exact pcf_keys_sub (ih _ k h)
    · exact h

theorem evictLoop_keys_sub {s : RState} {k : Int}
    (h : k ∈ bufKeys (evictLoop s).reassembly_buffer) :
    k ∈ bufKeys s.reassembly_buffer :=
  evictLoopFuel_keys_sub _ s k h

theorem evictLoopFuel_length_le :
    ∀ (fuel : Nat) (s : RState),
      s.reassembly_buffer.length ≤ fuel →
        (evictLoopFuel fuel s).reassembly_buffer.length ≤ MAX_FRAME_LAG := by
  intro fuel
  induction fuel with
  | zero => intro s h; simpa [evictLoopFuel, MAX_FRAME_LAG] using (by omega : s.reassembly_buffer.length ≤ 5)
  | succ f ih =>
    intro s h
    show (if MAX_FRAME_LAG < s.reassembly_buffer.length then _
          else s).reassembly_buffer.length ≤ MAX_FRAME_LAG
    by_cases hc : MAX_FRAME_LAG < s.reassembly_buffer.length
    · rw [if_pos hc]
      have hlt : (process_and_clear_frame s
            (minKey s.reassembly_buffer)).reassembly_buffer.length <
          s.reassembly_buffer.length :=
        length_pcf_lt (minKey_mem (by intro he; rw [he] at hc; simp at hc))
      exact ih _ (by omega)
    · rw [if_neg hc]; omega

theorem evictLoop_length_le (s : RState) :
    (evictLoop s).reassembly_buffer.length ≤ MAX_FRAME_LAG :=
  evictLoopFuel_length_le _ s (le_refl _)

/-! ### Lemmas about `storeMsg` and the three stages -/

theorem mem_keys_of_bufGet_isSome {b : List (Int × Entry)} {fid : Int}
    (h : (bufGet b fid).isSome) : fid ∈ bufKeys b := by
  by_contra hn
  rw [bufGet_eq_none_iff.mpr hn] at h
  simp at h

theorem bufKeys_updateChunks (b : List (Int × Entry)) (fid : Int) (ci : Nat)
    (bs : Bytes) : bufKeys (updateChunks b fid ci bs) = bufKeys b := by
  unfold bufKeys updateChunks
  rw [List.map_map]
  refine List.map_congr_left ?_
  intro p _
  show (if p.1 == fid then (p.1, addChunk p.2 ci bs) else p).1 = p.1
  split <;> rfl

theorem storeMsg_current (s : RState) (m : Msg) :
    (storeMsg s m).current_collecting_fid = s.current_collecting_fid := by
  unfold storeMsg
  cases m.frag_info <;> dsimp only <;> split <;> rfl

theorem storeMsg_last (s : RState) (m : Msg) :
    (storeMsg s m).last_processed_fid = s.last_processed_fid := by
  unfold storeMsg
  cases m.frag_info <;> dsimp only <;> split <;> rfl

theorem storeMsg_acks (s : RState) (m : Msg) :
    (storeMsg s m).acks = s.acks := by
  unfold storeMsg
  cases m.frag_info <;> dsimp only <;> split <;> rfl

theorem storeMsg_emitted (s : RState) (m : Msg) :
    (storeMsg s m).emitted = s.emitted := by
  unfold storeMsg
  cases m.frag_info <;> dsimp only <;> split <;> rfl

theorem storeMsg_mem (s : RState) (m : Msg) :
    m.frame_id ∈ bufKeys (storeMsg s m).reassembly_buffer := by
  unfold storeMsg
  cases m.frag_info with
  | none =>
    dsimp only
    split
    · exact mem_keys_of_bufGet_isSome (by assumption)
    · simp [bufKeys]
  | some fi =>
    dsimp only
    rw [bufKeys_updateChunks]
    split
    · exact mem_keys_of_bufGet_isSome (by assumption)
    · simp [bufKeys]

theorem storeMsg_keys_sub {s : RState} {m : Msg} {k : Int}
    (h : k ∈ bufKeys (storeMsg s m).reassembly_buffer) :
    k ∈ bufKeys s.reassembly_buffer ∨ k = m.frame_id := by
  rcases hfi : m.frag_info with _ | fi <;> simp only [storeMsg, hfi] at h
  · split at h
    · exact Or.inl h
    · simp only [bufKeys, List.map_append, List.mem_append] at h
      rcases h with h | h
      · exact Or.inl h
      · simp at h; exact Or.inr h
  · rw [bufKeys_updateChunks] at h
    split at h
    · exact Or.inl h
    · simp only [bufKeys, List.map_append, List.mem_append] at h
      rcases h with h | h
      · exact Or.inl h
      · simp at h; exact Or.inr h

theorem trigger_next_last_mono (s : RState) (m : Msg) :
    s.last_processed_fid ≤ (trigger_next s m).last_processed_fid := by
  unfold trigger_next
  split
  · dsimp only
    refine le_trans ?_ (flushOlder_last_mono _ _ _)
    split
    · exact pcf_last_mono _ _
    · exact le_refl _
  · exact le_refl _

theorem trigger_next_emitted_mono {s : RState} {m : Msg} {x : Int × Entry}
    (h : x ∈ s.emitted) : x ∈ (trigger_next s m).emitted := by
  unfold trigger_next
  split
  · dsimp only
    refine flushOlder_emitted_mono _ _ _ _ ?_
    split
    · exact pcf_emitted_mono h
    · exact h
  · exact h

theorem store_step_current (s : RState) (m : Msg) :
    (store_step s m).current_collecting_fid = s.current_collecting_fid := by
  unfold store_step
  split
  · exact storeMsg_current s m
  · rfl

theorem store_step_last (s : RState) (m : Msg) :
    (store_step s m).last_processed_fid = s.last_processed_fid := by
  unfold store_step
  split
  · exact storeMsg_last s m
  · rfl

theorem store_step_emitted (s : RState) (m : Msg) :
    (store_step s m).emitted = s.emitted := by
  unfold store_step
  split
  · exact storeMsg_emitted s m
  · rfl

theorem marker_step_current (s : RState) (m : Msg) :
    (marker_step s m).current_collecting_fid = s.current_collecting_fid := by
  unfold marker_step
  split
  · exact pcf_current s m.frame_id
  · rfl

theorem marker_step_last_mono (s : RState) (m : Msg) :
    s.last_processed_fid ≤ (marker_step s m).last_processed_fid := by
  unfold marker_step
  split
  · exact pcf_last_mono s m.frame_id
  · exact le_refl _

theorem marker_step_emitted_mono {s : RState} {m : Msg} {x : Int × Entry}
    (h : x ∈ s.emitted) : x ∈ (marker_step s m).emitted := by
  unfold marker_step
  split
  · exact pcf_emitted_mono h
  · exact h

theorem rstep_body_last_mono (s : RState) (m : Msg) :
    s.last_processed_fid ≤ (rstep_body s m).last_processed_fid := by
  unfold rstep_body
  refine le_trans (trigger_next_last_mono s m) ?_
  rw [← store_step_last (trigger_next s m) m]
  exact marker_step_last_mono _ m

theorem rstep_last_mono (s : RState) (m : Msg) :
    s.last_processed_fid ≤ (rstep s m).last_processed_fid := by
  unfold rstep
  split
  · exact le_refl _
  · exact le_trans (rstep_body_last_mono s m) (evictLoop_last_mono _)

theorem rstep_stale {s : RState} {m : Msg}
    (h : m.frame_id ≤ s.last_processed_fid) : rstep s m = s := by
  unfold rstep
  rw [if_pos h]

theorem store_step_keys_sub {s : RState} {m : Msg} {k : Int}
    (h : k ∈ bufKeys (store_step s m).reassembly_buffer) :
    k ∈ bufKeys s.reassembly_buffer ∨ k = m.frame_id := by
  unfold store_step at h
  split at h
  · exact storeMsg_keys_sub h
  · exact Or.inl h

theorem marker_step_keys_sub {s : RState} {m : Msg} {k : Int}
    (h : k ∈ bufKeys (marker_step s m).reassembly_buffer) :
    k ∈ bufKeys s.reassembly_buffer := by
  unfold marker_step at h
  split at h
  · exact pcf_keys_sub h
  · exact h

theorem trigger_next_current_of_lt {s : RState} {m : Msg}
    (h : s.current_collecting_fid < m.frame_id) :
    (trigger_next s m).current_collecting_fid = m.frame_id := by
  unfold trigger_next
  rw [if_pos h]

/-- **C1** (next-frame trigger / forward progress): a chunk that
passes the staleness filter and carries a `frame_id` above
`current_collecting_fid` moves `current_collecting_fid` to its own
`frame_id`, and every frame buffered before it with a smaller id is
finalized by that same step: it leaves the buffer and is emitted
(possibly partial), so no buffered frame below the new id can stall
forever. -/
theorem C1_next_frame_trigger_flushes_older (s : RState) (m : Msg)
    (hstale : s.last_processed_fid < m.frame_id)
    (hcur : s.current_collecting_fid < m.frame_id) :
    (rstep s m).current_collecting_fid = m.frame_id ∧
    ∀ fid ∈ bufKeys s.reassembly_buffer, fid < m.frame_id →
      fid ∉ bufKeys (rstep s m).reassembly_buffer ∧
      ∃ e, (fid, e) ∈ (rstep s m).emitted := by
  have hr : rstep s m = evictLoop (rstep_body s m) := by
    unfold rstep
    rw [if_neg (by omega)]
  constructor
  · rw [hr, evictLoop_current]
    unfold rstep_body
    rw [marker_step_current, store_step_current, trigger_next_current_of_lt hcur]
  · intro fid hmem hlt
    -- first, the frame is flushed by the next-frame trigger itself
    have hified : fid ∉ bufKeys (trigger_next s m).reassembly_buffer ∧
        ∃ e, (fid, e) ∈ (trigger_next s m).emitted := by
      unfold trigger_next
      rw [if_pos hcur]
      dsimp only
      set sa := if s.current_collecting_fid ≠ -1 then
          process_and_clear_frame s s.current_collecting_fid
        else s with hsa
      by_cases hin : fid ∈ bufKeys sa.reassembly_buffer
      · obtain ⟨h1, h2⟩ :=
          flushOlder_handles m.frame_id (bufKeys sa.reassembly_buffer) sa fid hin hlt
        exact ⟨h1, h2 hin⟩
      · -- the frame was removed by the finalize of `current_collecting_fid`
        have hfc : fid = s.current_collecting_fid ∧ s.current_collecting_fid ≠ -1 := by
          rw [hsa] at hin
          by_cases hc : s.current_collecting_fid ≠ -1
          · rw [if_pos hc] at hin
            by_cases hfid : fid = s.current_collecting_fid
            · exact ⟨hfid, hc⟩
            · exact absurd ((pcf_keys_other hfid).mpr hmem) hin
          · rw [if_neg hc] at hin
            exact absurd hmem hin
        constructor
        · intro hcon
          exact hin (flushOlder_keys_sub m.frame_id _ sa fid hcon)
        · have hem : ∃ e, (fid, e) ∈ sa.emitted := by
            rw [hsa, if_pos hfc.2, ← hfc.1]
            exact pcf_mem_emitted hmem
          rcases hem with ⟨e, he⟩
          exact ⟨e, flushOlder_emitted_mono m.frame_id _ sa _ he⟩
    obtain ⟨hnot1, e, hemit1⟩ := hified
    rw [hr]
    constructor
    · intro hcon
      have h2 := evictLoop_keys_sub hcon
      unfold rstep_body at h2
      have h3 := marker_step_keys_sub h2
      rcases store_step_keys_sub h3 with h4 | h4
      · exact hnot1 h4
      · omega
    · refine ⟨e, evictLoop_emitted_mono ?_⟩
      unfold rstep_body
      refine marker_step_emitted_mono ?_
      rw [store_step_emitted]
      exact hemit1

/-- **C5** (monotone high-water mark, staleness rejection): across any
message sequence `last_processed_fid` never decreases, and a chunk
with `frame_id ≤ last_processed_fid` is discarded with literally no
state change (same buffer, same emission log, same ACK log). -/
theorem C5_monotone_and_stale_discard :
    (∀ (s : RState) (msgs : List Msg),
      s.last_processed_fid ≤ (msgs.foldl rstep s).last_processed_fid) ∧
    (∀ (s : RState) (m : Msg),
      m.frame_id ≤ s.last_processed_fid → rstep s m = s) := by
  constructor
  · intro s msgs
    induction msgs generalizing s with
    | nil => exact le_refl _
    | cons m t ih => exact le_trans (rstep_last_mono s m) (ih _)
  · intro s m h
    exact rstep_stale h

/-- Witness for C5: a stale chunk (`frame_id = 3 ≤ 5`) hitting a
receiver whose high-water mark is 5 changes nothing. -/
theorem C5_witness :
    (3 : Int) ≤ (5 : Int) ∧
    rstep { reassembly_buffer := []
            current_collecting_fid := -1
            last_processed_fid := 5
            acks := []
            emitted := [] }
          { frame_id := 3, marker := false, frag_info := none
            json_data := [], pcd_chunk_bytes := [] } =
        { reassembly_buffer := []
          current_collecting_fid := -1
          last_processed_fid := 5
          acks := []
          emitted := [] } :=
  ⟨by decide, C5_monotone_and_stale_discard.2 _ _ (by decide)⟩

/-- **C4** (marker trigger): a terminal chunk for the currently
collecting frame finalizes that frame immediately — the frame is
emitted and leaves the buffer in the same step — while
`current_collecting_fid` stays unchanged; the finalization raises
`last_processed_fid` to at least that `frame_id`, so every subsequent
chunk carrying the same `frame_id` is discarded by the staleness
filter with no state change. -/
theorem C4_marker_trigger_finalizes_immediately (s : RState) (m : Msg)
    (hstale : s.last_processed_fid < m.frame_id)
    (hcur : m.frame_id = s.current_collecting_fid)
    (hmk : m.marker = true) :
    (∃ e, (m.frame_id, e) ∈ (rstep s m).emitted) ∧
    m.frame_id ∉ bufKeys (rstep s m).reassembly_buffer ∧
    (rstep s m).current_collecting_fid = s.current_collecting_fid ∧
    m.frame_id ≤ (rstep s m).last_processed_fid ∧
    ∀ m2 : Msg, m2.frame_id = m.frame_id → rstep (rstep s m) m2 = rstep s m := by
  have hr : rstep s m = evictLoop (rstep_body s m) := by
    unfold rstep; rw [if_neg (by omega)]
  have htr : trigger_next s m = s := by
    unfold trigger_next; rw [if_neg (by omega)]
  have hss : store_step s m = storeMsg s m := by
    unfold store_step
    rw [if_pos (beq_iff_eq.mpr hcur)]
  have hmcond : (m.marker && (m.frame_id == (storeMsg s m).current_collecting_fid)) = true := by
    rw [hmk, storeMsg_current]
    simp [hcur]
  have hms : marker_step (storeMsg s m) m =
      process_and_clear_frame (storeMsg s m) m.frame_id := by
    unfold marker_step
    rw [if_pos hmcond]
  have hbody : rstep_body s m = process_and_clear_frame (storeMsg s m) m.frame_id := by
    unfold rstep_body
    rw [htr, hss, hms]
  have hmem : m.frame_id ∈ bufKeys (storeMsg s m).reassembly_buffer := storeMsg_mem s m
  have hlast : m.frame_id ≤ (rstep s m).last_processed_fid := by
    rw [hr, hbody]
    exact le_trans (pcf_last_ge hmem) (evictLoop_last_mono _)
  refine ⟨?_, ?_, ?_, hlast, ?_⟩
  · rcases pcf_mem_emitted hmem with ⟨e, he⟩
    refine ⟨e, ?_⟩
    rw [hr, hbody]
    exact evictLoop_emitted_mono he
  · intro hcon
    rw [hr, hbody] at hcon
    exact pcf_not_mem _ _ (evictLoop_keys_sub hcon)
  · rw [hr, hbody, evictLoop_current, pcf_current, storeMsg_current]
  · intro m2 hm2
    refine rstep_stale ?_
    omega

/-- Witness for C4: a single-chunk frame 0 with the marker set, after
its own first chunk made it the collecting frame. -/
theorem C4_witness :
    ((-1 : Int) < (0 : Int) ∧
      (0 : Int) = (rstep initState
        { frame_id := 0, marker := false
          frag_info := some { total_chunks := 2, chunk_index := 0, dtype := "float32"
                              shape_rows := 1, shape_dim := 4 }
          json_data := [], pcd_chunk_bytes := [7] }).current_collecting_fid) ∧
    (∃ e, ((0 : Int), e) ∈ (rstep (rstep initState
        { frame_id := 0, marker := false
          frag_info := some { total_chunks := 2, chunk_index := 0, dtype := "float32"
                              shape_rows := 1, shape_dim := 4 }
          json_data := [], pcd_chunk_bytes := [7] })
        { frame_id := 0, marker := true
          frag_info := some { total_chunks := 2, chunk_index := 1, dtype := "float32"
                              shape_rows := 1, shape_dim := 4 }
          json_data := [], pcd_chunk_bytes := [8] }).emitted) := by
  refine ⟨⟨by decide, by decide⟩, ?_⟩
  exact (C4_marker_trigger_finalizes_immediately _ _ (by decide) (by decide) (by decide)).1

/-! ### The single-entry buffer invariant -/

theorem bufGet_nil (fid : Int) : bufGet ([] : List (Int × Entry)) fid = none := rfl

theorem bufGet_single (fid : Int) (e : Entry) : bufGet [(fid, e)] fid = some e := by
  simp [bufGet]

theorem bufRemove_single (fid : Int) (e : Entry) : bufRemove [(fid, e)] fid = [] := by
  simp [bufRemove]

theorem pcf_of_nil {s : RState} (fid : Int) (h : s.reassembly_buffer = []) :
    process_and_clear_frame s fid = s := by
  unfold process_and_clear_frame
  rw [h, bufGet_nil]

theorem pcf_of_single {s : RState} {fid : Int} {e : Entry}
    (h : s.reassembly_buffer = [(fid, e)]) :
    process_and_clear_frame s fid =
      { reassembly_buffer := []
        current_collecting_fid := s.current_collecting_fid
        last_processed_fid := max s.last_processed_fid fid
        acks := s.acks ++ [fid]
        emitted := s.emitted ++ [(fid, e)] } := by
  obtain ⟨b, cur, last, aks, em⟩ := s
  simp only at h
  subst h
  simp [process_and_clear_frame, bufGet_single, bufRemove_single]

theorem storeMsg_of_nil {s : RState} (m : Msg) (h : s.reassembly_buffer = []) :
    ∃ e, storeMsg s m =
      { reassembly_buffer := [(m.frame_id, e)]
        current_collecting_fid := s.current_collecting_fid
        last_processed_fid := s.last_processed_fid
        acks := s.acks
        emitted := s.emitted } := by
  obtain ⟨b, cur, last, aks, em⟩ := s
  simp only at h
  subst h
  rcases hfi : m.frag_info with _ | fi
  · refine ⟨Entry.json m.json_data, ?_⟩
    simp [storeMsg, hfi, bufGet_nil]
  · refine ⟨Entry.pcd fi.total_chunks fi.dtype fi.shape_dim
      [(fi.chunk_index, m.pcd_chunk_bytes)], ?_⟩
    simp [storeMsg, hfi, bufGet_nil, updateChunks, addChunk]

theorem storeMsg_of_single {s : RState} (m : Msg) {e : Entry}
    (h : s.reassembly_buffer = [(m.frame_id, e)]) :
    ∃ e2, storeMsg s m =
      { reassembly_buffer := [(m.frame_id, e2)]
        current_collecting_fid := s.current_collecting_fid
        last_processed_fid := s.last_processed_fid
        acks := s.acks
        emitted := s.emitted } := by
  obtain ⟨b, cur, last, aks, em⟩ := s
  simp only at h
  subst h
  rcases hfi : m.frag_info with _ | fi
  · refine ⟨e, ?_⟩
    simp [storeMsg, hfi, bufGet_single]
  · refine ⟨addChunk e fi.chunk_index m.pcd_chunk_bytes, ?_⟩
    simp [storeMsg, hfi, bufGet_single, updateChunks]

theorem RInv_buffer_cases {s : RState} (h : RInv s) :
    s.reassembly_buffer = [] ∨
      ∃ e, s.reassembly_buffer = [(s.current_collecting_fid, e)] := by
  match hb : s.reassembly_buffer with
  | [] => exact Or.inl rfl
  | [p] =>
    right
    have hp := h.keys_eq p (by rw [hb]; simp)
    exact ⟨p.2, by rw [← hp]⟩
  | p :: q :: t =>
    have hl := h.len_le
    rw [hb] at hl
    simp at hl

theorem RInv_init : RInv initState := by
  refine ⟨?_, ?_, ?_, ?_⟩ <;> simp [initState]

theorem pcf_RInv {s : RState} (fid : Int) (h : RInv s) :
    RInv (process_and_clear_frame s fid) := by
  unfold process_and_clear_frame
  cases hg : bufGet s.reassembly_buffer fid with
  | none => exact h
  | some e =>
    have hmem : fid ∈ bufKeys s.reassembly_buffer :=
      mem_keys_of_bufGet_isSome (by rw [hg]; rfl)
    have hne : s.reassembly_buffer ≠ [] := by
      intro hcon
      rw [hcon] at hmem
      simp [bufKeys] at hmem
    refine ⟨?_, ?_, ?_, ?_⟩
    · intro p hp
      exact h.keys_eq p (List.mem_of_mem_filter hp)
    · exact le_trans (List.length_filter_le _ _) h.len_le
    · have hlg := h.last_ge
      simp only
      omega
    · intro hc
      exact absurd (h.nil_of_none hc) hne

theorem marker_step_RInv {s : RState} (m : Msg) (h : RInv s) :
    RInv (marker_step s m) := by
  unfold marker_step
  split
  · exact pcf_RInv m.frame_id h
  · exact h

theorem store_step_RInv {s : RState} {m : Msg} (h : RInv s)
    (hm : (0 : Int) ≤ m.frame_id) : RInv (store_step s m) := by
  unfold store_step
  split
  · rename_i hbeq
    have hcur : m.frame_id = s.current_collecting_fid := beq_iff_eq.mp hbeq
    rcases RInv_buffer_cases h with hb | ⟨e, hb⟩
    · rcases storeMsg_of_nil m hb with ⟨e2, he2⟩
      rw [he2]
      refine ⟨?_, ?_, h.last_ge, ?_⟩
      · intro p hp
        simp at hp
        rw [hp, hcur]
      · simp
      · intro hc
        simp only at hc
        omega
    · rw [← hcur] at hb
      rcases storeMsg_of_single m hb with ⟨e2, he2⟩
      rw [he2]
      refine ⟨?_, ?_, h.last_ge, ?_⟩
      · intro p hp
        simp at hp
        rw [hp, hcur]
      · simp
      · intro hc
        simp only at hc
        omega
  · exact h

theorem trigger_next_eq_self {s : RState} {m : Msg}
    (h : ¬ s.current_collecting_fid < m.frame_id) : trigger_next s m = s := by
  unfold trigger_next
  rw [if_neg h]

theorem trigger_next_of_RInv {s : RState} {m : Msg} (h : RInv s)
    (htrig : s.current_collecting_fid < m.frame_id) :
    ∃ sa : RState, sa.reassembly_buffer = [] ∧ (-1 : Int) ≤ sa.last_processed_fid ∧
      trigger_next s m =
        { reassembly_buffer := []
          current_collecting_fid := m.frame_id
          last_processed_fid := sa.last_processed_fid
          acks := sa.acks
          emitted := sa.emitted } := by
  unfold trigger_next
  rw [if_pos htrig]
  dsimp only
  set sa := if s.current_collecting_fid ≠ -1 then
      process_and_clear_frame s s.current_collecting_fid
    else s with hsa
  have hsab : sa.reassembly_buffer = [] := by
    rw [hsa]
    by_cases hc : s.current_collecting_fid = -1
    · rw [if_neg (by simpa using hc)]
      exact h.nil_of_none hc
    · rw [if_pos hc]
      rcases RInv_buffer_cases h with hb | ⟨e, hb⟩
      · rw [pcf_of_nil _ hb]; exact hb
      · rw [pcf_of_single hb]
  have hsal : (-1 : Int) ≤ sa.last_processed_fid := by
    rw [hsa]
    split
    · exact le_trans h.last_ge (pcf_last_mono _ _)
    · exact h.last_ge
  refine ⟨sa, hsab, hsal, ?_⟩
  rw [show bufKeys sa.reassembly_buffer = [] by rw [hsab]; rfl]
  show ({ sa with current_collecting_fid := m.frame_id } : RState) = _
  obtain ⟨b, cur, last, aks, em⟩ := sa
  simp only at hsab
  subst hsab
  rfl

theorem RInv_rstep_body {s : RState} {m : Msg} (h : RInv s)
    (hns : s.last_processed_fid < m.frame_id) : RInv (rstep_body s m) := by
  have hm0 : (0 : Int) ≤ m.frame_id := by
    have hlg := h.last_ge
    omega
  unfold rstep_body
  refine marker_step_RInv m (store_step_RInv ?_ hm0)
  by_cases htrig : s.current_collecting_fid < m.frame_id
  · rcases trigger_next_of_RInv h htrig with ⟨sa, hsab, hsal, heq⟩
    rw [heq]
    refine ⟨?_, ?_, hsal, ?_⟩
    · intro p hp; simp at hp
    · simp
    · intro _; rfl
  · rw [trigger_next_eq_self htrig]
    exact h

theorem RInv_rstep {s : RState} (m : Msg) (h : RInv s) : RInv (rstep s m) := by
  unfold rstep
  split
  · exact h
  · rename_i hns
    have hb : RInv (rstep_body s m) := RInv_rstep_body h (by omega)
    rw [evictLoop_eq_self (le_trans hb.len_le (by norm_num [MAX_FRAME_LAG]))]
    exact hb

theorem RInv_reach {s : RState} (h : Reach s) : RInv s := by
  induction h with
  | start => exact RInv_init
  | step m _ ih => exact RInv_rstep m ih

/-- **C6** (overflow bound and min-first eviction): after processing
any received message from a reachable state, the number of buffered
(non-finalized) entries never exceeds `MAX_FRAME_LAG = 5`; and the
overflow-protection loop, whenever the count does exceed the limit,
evicts the entry with the smallest `frame_id` first (finalizing it
with whatever chunks it has). -/
theorem C6_overflow_bound_and_min_first_eviction (s : RState) (m : Msg)
    (hs : Reach s) :
    (rstep s m).reassembly_buffer.length ≤ MAX_FRAME_LAG ∧
    ∀ t : RState, MAX_FRAME_LAG < t.reassembly_buffer.length →
      evictLoop t =
        evictLoop (process_and_clear_frame t (minKey t.reassembly_buffer)) ∧
      ∀ k ∈ bufKeys t.reassembly_buffer, minKey t.reassembly_buffer ≤ k := by
  constructor
  · by_cases hstale : m.frame_id ≤ s.last_processed_fid
    · rw [rstep_stale hstale]
      have hl := (RInv_reach hs).len_le
      have h5 : MAX_FRAME_LAG = 5 := rfl
      omega
    · unfold rstep
      rw [if_neg hstale]
      exact evictLoop_length_le _
  · intro t ht
    refine ⟨?_, fun k hk => minKey_le hk⟩
    rw [evictLoop_eq, if_pos ht]

/-- Witness for C6: one stored chunk of frame 0 leaves at most
`MAX_FRAME_LAG` buffered entries. -/
theorem C6_witness :
    (rstep initState
      { frame_id := 0, marker := false
        frag_info := some { total_chunks := 3, chunk_index := 0, dtype := "float32"
                            shape_rows := 1, shape_dim := 4 }
        json_data := [], pcd_chunk_bytes := [1, 2] }).reassembly_buffer.length ≤
      MAX_FRAME_LAG :=
  (C6_overflow_bound_and_min_first_eviction initState
    { frame_id := 0, marker := false
      frag_info := some { total_chunks := 3, chunk_index := 0, dtype := "float32"
                          shape_rows := 1, shape_dim := 4 }
      json_data := [], pcd_chunk_bytes := [1, 2] } Reach.start).1

/-- **C7** (implicit single-entry invariant): after processing any
received message from a reachable state, the reassembly buffer holds
at most one entry, its key (when present) is `current_collecting_fid`,
and for a message passing the staleness filter the
overflow-protection loop at the end of the iteration does nothing
(its body is never executed). -/
theorem C7_buffer_at_most_one_entry (s : RState) (m : Msg) (hs : Reach s) :
    (rstep s m).reassembly_buffer.length ≤ 1 ∧
    (∀ p ∈ (rstep s m).reassembly_buffer,
      p.1 = (rstep s m).current_collecting_fid) ∧
    (s.last_processed_fid < m.frame_id →
      evictLoop (rstep_body s m) = rstep_body s m) := by
  have hinv : RInv (rstep s m) := RInv_rstep m (RInv_reach hs)
  refine ⟨hinv.len_le, hinv.keys_eq, ?_⟩
  intro hns
  have hb : RInv (rstep_body s m) := RInv_rstep_body (RInv_reach hs) hns
  exact evictLoop_eq_self (le_trans hb.len_le (by norm_num [MAX_FRAME_LAG]))

/-- Witness for C7: after frame 0's first chunk, the buffer holds
exactly the one entry for frame 0 and the eviction loop was a no-op. -/
theorem C7_witness :
    ((-1 : Int) < (0 : Int)) ∧
    (rstep initState
      { frame_id := 0, marker := false
        frag_info := some { total_chunks := 3, chunk_index := 0, dtype := "float32"
                            shape_rows := 1, shape_dim := 4 }
        json_data := [], pcd_chunk_bytes := [1, 2] }).reassembly_buffer.length ≤ 1 ∧
    evictLoop (rstep_body initState
      { frame_id := 0, marker := false
        frag_info := some { total_chunks := 3, chunk_index := 0, dtype := "float32"
                            shape_rows := 1, shape_dim := 4 }
        json_data := [], pcd_chunk_bytes := [1, 2] }) =
      rstep_body initState
        { frame_id := 0, marker := false
          frag_info := some { total_chunks := 3, chunk_index := 0, dtype := "float32"
                              shape_rows := 1, shape_dim := 4 }
          json_data := [], pcd_chunk_bytes := [1, 2] } := by
  have h := C7_buffer_at_most_one_entry initState
    { frame_id := 0, marker := false
      frag_info := some { total_chunks := 3, chunk_index := 0, dtype := "float32"
                          shape_rows := 1, shape_dim := 4 }
      json_data := [], pcd_chunk_bytes := [1, 2] } Reach.start
  exact ⟨by decide, h.1, h.2.2 (by decide)⟩

/-! ### Sorting lemmas for the reassembly order -/

theorem insertSorted_perm (x : Nat) (l : List Nat) :
    List.Perm (insertSorted x l) (x :: l) := by
  induction l with
  | nil => exact List.Perm.refl _
  | cons y ys ih =>
    unfold insertSorted
    split
    · exact List.Perm.refl _
    · exact List.Perm.trans (List.Perm.cons y ih) (List.Perm.swap x y ys)

theorem sortKeys_perm (l : List Nat) : List.Perm (sortKeys l) l := by
  induction l with
  | nil => exact List.Perm.refl _
  | cons x xs ih =>
    exact List.Perm.trans (insertSorted_perm x (sortKeys xs)) (List.Perm.cons x ih)

theorem insertSorted_sorted (x : Nat) {l : List Nat}
    (h : l.Sorted (· ≤ ·)) : (insertSorted x l).Sorted (· ≤ ·) := by
  induction l with
  | nil => simp [insertSorted]
  | cons y ys ih =>
    rw [List.sorted_cons] at h
    obtain ⟨hy, hys⟩ := h
    unfold insertSorted
    split
    · rename_i hxy
      rw [List.sorted_cons]
      refine ⟨?_, by rw [List.sorted_cons]; exact ⟨hy, hys⟩⟩
      intro b hb
      rcases List.mem_cons.mp hb with hb | hb
      · omega
      · have := hy b hb
        omega
    · rename_i hxy
      rw [List.sorted_cons]
      refine ⟨?_, ih hys⟩
      intro b hb
      have hb2 := (insertSorted_perm x ys).mem_iff.mp hb
      rcases List.mem_cons.mp hb2 with hb2 | hb2
      · omega
      · exact hy b hb2

theorem sortKeys_sorted (l : List Nat) : (sortKeys l).Sorted (· ≤ ·) := by
  induction l with
  | nil => simp [sortKeys]
  | cons x xs ih => exact insertSorted_sorted x ih

theorem insertSorted_of_le {x : Nat} {l : List Nat} (h : ∀ y ∈ l, x ≤ y) :
    insertSorted x l = x :: l := by
  cases l with
  | nil => rfl
  | cons y ys =>
    unfold insertSorted
    rw [if_pos (h y (by simp))]

theorem sortKeys_of_sorted {l : List Nat} (h : l.Sorted (· ≤ ·)) :
    sortKeys l = l := by
  induction l with
  | nil => rfl
  | cons x xs ih =>
    rw [List.sorted_cons] at h
    show insertSorted x (sortKeys xs) = x :: xs
    rw [ih h.2]
    exact insertSorted_of_le h.1

theorem process_frame_data_pcd (total : Nat) (dt : String) (sd : Nat)
    (cs : List (Nat × Bytes)) (hne : cs ≠ []) :
    process_frame_data (Entry.pcd total dt sd cs) =
      some { payload := ((sortKeys (cs.map Prod.fst)).map
               (fun i => lookupChunk cs i)).flatten
             received_chunks := cs.length
             total_chunks := total
             complete := decide (total ≤ cs.length) } := by
  simp only [process_frame_data]
  rw [if_neg (by simpa [List.isEmpty_iff] using hne)]

/-- **C3** (finalization semantics): finalizing a buffered PCD frame
concatenates its stored chunk byte-slices in ascending `chunk_index`
order over exactly the indices present (gaps skipped, no zero-fill),
emits unconditionally even when `received_chunks < total_chunks` with
the tags `received_chunks`, `total_chunks` and a completeness flag
that is `true` exactly when `received_chunks = total_chunks`, sends
exactly one acknowledgment for that `frame_id` after emission, and
sets `last_processed_fid` to `max last_processed_fid frame_id`. -/
theorem C3_finalize_concatenates_and_acks_once (s : RState) (fid : Int)
    (total : Nat) (dt : String) (sd : Nat) (cs : List (Nat × Bytes))
    (hget : bufGet s.reassembly_buffer fid = some (Entry.pcd total dt sd cs))
    (hne : cs ≠ []) (hle : cs.length ≤ total) :
    (process_and_clear_frame s fid).emitted =
        s.emitted ++ [(fid, Entry.pcd total dt sd cs)] ∧
    (process_and_clear_frame s fid).acks = s.acks ++ [fid] ∧
    (process_and_clear_frame s fid).last_processed_fid =
        max s.last_processed_fid fid ∧
    ∃ r : FrameResult,
      process_frame_data (Entry.pcd total dt sd cs) = some r ∧
      r.payload = ((sortKeys (cs.map Prod.fst)).map
        (fun i => lookupChunk cs i)).flatten ∧
      (sortKeys (cs.map Prod.fst)).Sorted (· ≤ ·) ∧
      List.Perm (sortKeys (cs.map Prod.fst)) (cs.map Prod.fst) ∧
      r.received_chunks = cs.length ∧
      r.total_chunks = total ∧
      (r.complete = true ↔ cs.length = total) := by
  have hpcf : process_and_clear_frame s fid =
      { reassembly_buffer := bufRemove s.reassembly_buffer fid
        current_collecting_fid := s.current_collecting_fid
        last_processed_fid := max s.last_processed_fid fid
        acks := s.acks ++ [fid]
        emitted := s.emitted ++ [(fid, Entry.pcd total dt sd cs)] } := by
    unfold process_and_clear_frame
    rw [hget]
  refine ⟨by rw [hpcf], by rw [hpcf], by rw [hpcf], ?_⟩
  refine ⟨_, process_frame_data_pcd total dt sd cs hne, rfl,
    sortKeys_sorted _, sortKeys_perm _, rfl, rfl, ?_⟩
  simp only [decide_eq_true_eq]
  omega

/-- Witness for C3: the spec's own scenario — frame 3 with
`total_chunks = 4` and chunks 0, 1, 3 buffered (chunk 2 lost). -/
theorem C3_witness :
    (process_and_clear_frame
      { reassembly_buffer :=
          [((3 : Int), Entry.pcd 4 "float32" 4 [(0, [10]), (1, [11]), (3, [13])])]
        current_collecting_fid := 3
        last_processed_fid := -1
        acks := []
        emitted := [] } 3).acks = [(3 : Int)] ∧
    ∃ r : FrameResult,
      process_frame_data
          (Entry.pcd 4 "float32" 4 [(0, [10]), (1, [11]), (3, [13])]) = some r ∧
      r.payload = [10, 11, 13] ∧
      r.received_chunks = 3 ∧ r.total_chunks = 4 ∧ r.complete = false := by
  have h := C3_finalize_concatenates_and_acks_once
    { reassembly_buffer :=
        [((3 : Int), Entry.pcd 4 "float32" 4 [(0, [10]), (1, [11]), (3, [13])])]
      current_collecting_fid := 3
      last_processed_fid := -1
      acks := []
      emitted := [] } 3 4 "float32" 4 [(0, [10]), (1, [11]), (3, [13])]
    (by decide) (by decide) (by decide)
  obtain ⟨h1, h2, h3, r, hr, hpay, hsort, hperm, hrec, htot, hcomp⟩ := h
  refine ⟨by simpa using h2, r, hr, ?_, by simpa using hrec, htot, ?_⟩
  · rw [hpay]; decide
  · have : ¬ (3 : Nat) = 4 := by decide
    cases hc : r.complete
    · rfl
    · exact absurd (hcomp.mp hc) this

/-- **C8, counterexample**: there is no `EmptyFrameError` anywhere in
the sender — fragmenting a zero-row point-cloud frame succeeds and
silently produces zero chunks (`total_chunks = ⌈0/500⌉ = 0`, the send
loop body never runs), contradicting the claim that it "fails with
`EmptyFrameError` … rather than succeeding or silently producing zero
chunks". -/
theorem C8_counterexample_zero_rows_silently_zero_chunks :
    sendFrameMsgs 0 [] "float32" 4 = [] := by rfl

/-- **C8, amended**: for every `PointBlock` frame with zero rows, the
fragmenter succeeds (it is a total function, there is no
`EmptyFrameError` and no empty-frame permission flag) and silently
produces zero chunks: nothing is sent for that frame. -/
theorem C8_amended_zero_rows_yield_zero_chunks (fid : Int) (dt : String)
    (w : Nat) : sendFrameMsgs fid [] dt w = [] := rfl

/-- `dict.pop` removes the looked-up key: a second lookup misses. -/
theorem tsGet_tsRemove_self (ts : List (Int × Int)) (a : Int) :
    tsGet (tsRemove ts a) a = none := by
  unfold tsGet
  rw [List.find?_eq_none.mpr]
  · rfl
  · intro p hp
    have hmem := List.mem_filter.mp hp
    simpa using hmem.2

/-- **C9** (at-most-once ack consumption): an acknowledgment whose
`frame_id` is pending yields exactly one RTT sample
`(now − send_timestamp) · 1000` and removes the pending entry; an ack
for an unknown (or already consumed) `frame_id` is silently ignored,
so a duplicate ack for the same `frame_id` is a no-op — one RTT
sample, no second removal. -/
theorem C9_ack_consumed_at_most_once (s : SenderState) (now now2 a : Int) :
    (tsGet s.sent_timestamps a = none → ack_listener_step s now (some a) = s) ∧
    (∀ t : Int, tsGet s.sent_timestamps a = some t →
      (ack_listener_step s now (some a)).rtt_records_ms =
          s.rtt_records_ms ++ [(now - t) * 1000] ∧
      tsGet (ack_listener_step s now (some a)).sent_timestamps a = none ∧
      ack_listener_step (ack_listener_step s now (some a)) now2 (some a) =
        ack_listener_step s now (some a)) := by
  constructor
  · intro h
    simp only [ack_listener_step]
    rw [h]
  · intro t ht
    have hstep : ack_listener_step s now (some a) =
        { sent_timestamps := tsRemove s.sent_timestamps a
          rtt_records_ms := s.rtt_records_ms ++ [(now - t) * 1000] } := by
      simp only [ack_listener_step]
      rw [ht]
    refine ⟨by rw [hstep], ?_, ?_⟩
    · rw [hstep]
      exact tsGet_tsRemove_self _ a
    · rw [hstep]
      simp only [ack_listener_step]
      rw [show tsGet (tsRemove s.sent_timestamps a) a = none from
        tsGet_tsRemove_self _ a]

/-- Witness for C9: the spec's own scenario — the ack for frame 10
arrives twice; the first yields one RTT sample, the second is a no-op. -/
theorem C9_witness :
    tsGet [((10 : Int), (100 : Int))] 10 = some 100 ∧
    (ack_listener_step { sent_timestamps := [(10, 100)], rtt_records_ms := [] }
        105 (some 10)).rtt_records_ms = [(105 - 100) * 1000] ∧
    ack_listener_step
        (ack_listener_step { sent_timestamps := [(10, 100)], rtt_records_ms := [] }
          105 (some 10)) 106 (some 10) =
      ack_listener_step { sent_timestamps := [(10, 100)], rtt_records_ms := [] }
        105 (some 10) := by
  have h := (C9_ack_consumed_at_most_once
    { sent_timestamps := [(10, 100)], rtt_records_ms := [] } 105 106 10).2
    100 (by decide)
  exact ⟨by decide, by rw [h.1]; rfl, h.2.2⟩

/-- **C10, counterexample**: `RTTTracker.get_loss_rate` reports the
loss rate as a *percentage* — `lost / (last_seq + 1) * 100` — not as
the plain ratio `total_lost / (last_seq + 1)` the claim states: at
`receiver_last_seq = 1, receiver_lost = 1` (packet 0 lost, packet 1
received) the code reports `50`, not `1/2`. -/
theorem C10_counterexample_loss_rate_is_percentage :
    get_loss_rate 1 1 = 50 ∧ get_loss_rate 1 1 ≠ (1 : ℚ) / (1 + 1) := by
  constructor <;> norm_num [get_loss_rate]

/-- **C10, amended**: the detector keeps `last_seq` initialized to
`-1` (below the valid range `≥ 0`); a sequence `s ≤ last_seq` is
discarded with no counter update; a gap (`s > last_seq + 1`) adds
`s − last_seq − 1` to the lost counter; in both accepting branches
`last_seq` is set to `s`; and the loss rate is reported as
`total_lost / (last_seq + 1) × 100` (a percentage), with `0` returned
when `last_seq = 0`. -/
theorem C10_amended_sequence_loss_detector (s : DetState) (sequence : Int)
    (size : Nat) (last lost : Nat) :
    detInit.last_seq = -1 ∧
    (sequence ≤ s.last_seq → on_packet_received s sequence size = s) ∧
    (s.last_seq + 1 < sequence →
      (on_packet_received s sequence size).total_lost_frames =
          s.total_lost_frames + (sequence - s.last_seq - 1) ∧
      (on_packet_received s sequence size).last_seq = sequence) ∧
    (sequence = s.last_seq + 1 →
      (on_packet_received s sequence size).total_lost_frames =
          s.total_lost_frames ∧
      (on_packet_received s sequence size).last_seq = sequence) ∧
    (last ≠ 0 → get_loss_rate last lost = (lost : ℚ) / ((last : ℚ) + 1) * 100) ∧
    get_loss_rate 0 lost = 0 := by
  refine ⟨rfl, ?_, ?_, ?_, ?_, ?_⟩
  · intro h
    unfold on_packet_received
    rw [if_pos h]
  · intro h
    unfold on_packet_received
    rw [if_neg (by omega), if_pos h]
    exact ⟨rfl, rfl⟩
  · intro h
    unfold on_packet_received
    rw [if_neg (by omega), if_neg (by omega)]
    simp
  · intro h
    unfold get_loss_rate
    rw [if_neg h]
  · unfold get_loss_rate
    rw [if_pos rfl]

/-- Witness for C10: a duplicate (`5 ≤ 7`) is dropped unchanged, and
the percentage report at `(1, 1)`. -/
theorem C10_witness :
    ((5 : Int) ≤ (7 : Int) ∧
      on_packet_received
        { last_seq := 7, total_received := 3, total_bytes := 2
          total_lost_frames := 1 } 5 10 =
      { last_seq := 7, total_received := 3, total_bytes := 2
        total_lost_frames := 1 }) ∧
    ((1 : Nat) ≠ 0 ∧ get_loss_rate 1 1 = (1 : ℚ) / ((1 : ℚ) + 1) * 100) := by
  have h := C10_amended_sequence_loss_detector
    { last_seq := 7, total_received := 3, total_bytes := 2
      total_lost_frames := 1 } 5 10 1 1
  exact ⟨⟨by decide, h.2.1 (by decide)⟩, ⟨by decide, h.2.2.2.2.1 (by decide)⟩⟩

/-- Witness for C1: frame 0 is buffered (no marker seen) when frame
1's first chunk arrives; frame 0 is flushed and emitted, and frame 1
becomes the collecting frame. -/
theorem C1_witness :
    ((-1 : Int) < (1 : Int) ∧ (0 : Int) < (1 : Int)) ∧
    (rstep
      { reassembly_buffer := [((0 : Int), Entry.pcd 3 "float32" 4 [(0, [1])])]
        current_collecting_fid := 0
        last_processed_fid := -1
        acks := []
        emitted := [] }
      { frame_id := 1, marker := false
        frag_info := some { total_chunks := 2, chunk_index := 0, dtype := "float32"
                            shape_rows := 1, shape_dim := 4 }
        json_data := [], pcd_chunk_bytes := [9] }).current_collecting_fid = 1 ∧
    ((0 : Int) ∉ bufKeys (rstep
      { reassembly_buffer := [((0 : Int), Entry.pcd 3 "float32" 4 [(0, [1])])]
        current_collecting_fid := 0
        last_processed_fid := -1
        acks := []
        emitted := [] }
      { frame_id := 1, marker := false
        frag_info := some { total_chunks := 2, chunk_index := 0, dtype := "float32"
                            shape_rows := 1, shape_dim := 4 }
        json_data := [], pcd_chunk_bytes := [9] }).reassembly_buffer ∧
     ∃ e, ((0 : Int), e) ∈ (rstep
      { reassembly_buffer := [((0 : Int), Entry.pcd 3 "float32" 4 [(0, [1])])]
        current_collecting_fid := 0
        last_processed_fid := -1
        acks := []
        emitted := [] }
      { frame_id := 1, marker := false
        frag_info := some { total_chunks := 2, chunk_index := 0, dtype := "float32"
                            shape_rows := 1, shape_dim := 4 }
        json_data := [], pcd_chunk_bytes := [9] }).emitted) := by
  have h := C1_next_frame_trigger_flushes_older
    { reassembly_buffer := [((0 : Int), Entry.pcd 3 "float32" 4 [(0, [1])])]
      current_collecting_fid := 0
      last_processed_fid := -1
      acks := []
      emitted := [] }
    { frame_id := 1, marker := false
      frag_info := some { total_chunks := 2, chunk_index := 0, dtype := "float32"
                          shape_rows := 1, shape_dim := 4 }
      json_data := [], pcd_chunk_bytes := [9] }
    (by decide) (by decide)
  exact ⟨⟨by decide, by decide⟩, h.1, h.2 0 (by decide) (by decide)⟩

/-! ### Round-trip: fragmentation followed by in-order reassembly -/

theorem le_ceil_mul {N c : Nat} (hc : 0 < c) : N ≤ (N + c - 1) / c * c := by
  have h := Nat.div_add_mod (N + c - 1) c
  have hr : (N + c - 1) % c < c := Nat.mod_lt _ hc
  rw [Nat.mul_comm]
  omega

theorem flatten_map_flatten {α : Type} (L : List (List (List α))) :
    (L.map List.flatten).flatten = L.flatten.flatten := by
  induction L with
  | nil => rfl
  | cons x xs ih => simp [ih]

theorem flatten_range_take_drop {α : Type} (c : Nat) (hc : 0 < c) :
    ∀ (n : Nat) (rows : List α), rows.length ≤ n * c →
      ((List.range n).map (fun i => (rows.drop (i * c)).take c)).flatten = rows := by
  intro n
  induction n with
  | zero =>
    intro rows h
    have h0 : rows = [] := by simpa using h
    subst h0
    rfl
  | succ n ih =>
    intro rows h
    rw [List.range_succ_eq_map, List.map_cons, List.flatten_cons, List.map_map]
    have hmap : (List.range n).map ((fun i => (rows.drop (i * c)).take c) ∘ Nat.succ) =
        (List.range n).map (fun i => ((rows.drop c).drop (i * c)).take c) := by
      refine List.map_congr_left ?_
      intro i _
      show (rows.drop (Nat.succ i * c)).take c = ((rows.drop c).drop (i * c)).take c
      rw [List.drop_drop]
      congr 2
      rw [Nat.succ_eq_add_one]
      ring
    have hlen : (rows.drop c).length ≤ n * c := by
      rw [List.length_drop]
      have hx : (n + 1) * c = n * c + c := by ring
      omega
    rw [hmap, ih (rows.drop c) hlen]
    simp only [Nat.zero_mul, List.drop_zero]
    exact List.take_append_drop c rows

theorem slice_take_c {α : Type} (rows : List α) (c i : Nat) :
    (rows.drop (i * c)).take (min ((i + 1) * c) rows.length - i * c) =
      (rows.drop (i * c)).take c := by
  rw [List.take_eq_take, List.length_drop]
  have hx : (i + 1) * c = i * c + c := by ring
  omega

theorem find?_map_range (p : Nat → Bytes) :
    ∀ (n i : Nat), i < n →
      ((List.range n).map (fun j => (j, p j))).find? (fun q => q.1 == i) =
        some (i, p i) := by
  intro n
  induction n with
  | zero => intro i h; omega
  | succ n ih =>
    intro i h
    rw [List.range_succ, List.map_append, List.find?_append]
    by_cases hin : i < n
    · rw [ih i hin]
      rfl
    · have hieq : i = n := by omega
      subst hieq
      have hnone : ((List.range i).map (fun j => (j, p j))).find?
          (fun q => q.1 == i) = none := by
        rw [List.find?_eq_none]
        intro x hx
        rcases List.mem_map.mp hx with ⟨j, hj, rfl⟩
        have : j < i := List.mem_range.mp hj
        simp
        omega
      rw [hnone]
      simp [List.find?]

theorem lookupChunk_map_range (p : Nat → Bytes) (n i : Nat) (h : i < n) :
    lookupChunk ((List.range n).map (fun j => (j, p j))) i = p i := by
  unfold lookupChunk
  rw [find?_map_range p n i h]
  rfl

theorem any_map_range_eq_false (p : Nat → Bytes) (k : Nat) :
    ((List.range k).map (fun j => (j, p j))).any (fun q => q.1 == k) = false := by
  rw [List.any_eq_false]
  intro x hx
  rcases List.mem_map.mp hx with ⟨j, hj, rfl⟩
  have : j < k := List.mem_range.mp hj
  simp
  omega

theorem keys_map_range (p : Nat → Bytes) (n : Nat) :
    ((List.range n).map (fun j => (j, p j))).map Prod.fst = List.range n := by
  rw [List.map_map]
  exact List.map_id _

theorem sorted_range (n : Nat) : (List.range n).Sorted (· ≤ ·) :=
  (List.pairwise_lt_range n).imp (fun h => le_of_lt h)

theorem trigger_next_init {m : Msg} (h : (-1 : Int) < m.frame_id) :
    trigger_next initState m = { initState with current_collecting_fid := m.frame_id } := by
  unfold trigger_next
  rw [if_pos (show initState.current_collecting_fid < m.frame_id from h)]
  rfl

theorem store_step_init_pcd (fid : Int) (T w r : Nat) (dt : String)
    (ci : Nat) (bs : Bytes) (mk : Bool) :
    store_step { initState with current_collecting_fid := fid }
      { frame_id := fid, marker := mk
        frag_info := some { total_chunks := T, chunk_index := ci, dtype := dt
                            shape_rows := r, shape_dim := w }
        json_data := [], pcd_chunk_bytes := bs } =
    collectState fid T dt w [(ci, bs)] := by
  unfold store_step
  rw [if_pos (by simp)]
  simp [storeMsg, initState, bufGet, updateChunks, addChunk, collectState]

theorem store_step_collect (fid : Int) (T w r : Nat) (dt : String)
    (cs : List (Nat × Bytes)) (ci : Nat) (bs : Bytes) (mk : Bool)
    (hci : cs.any (fun q => q.1 == ci) = false) :
    store_step (collectState fid T dt w cs)
      { frame_id := fid, marker := mk
        frag_info := some { total_chunks := T, chunk_index := ci, dtype := dt
                            shape_rows := r, shape_dim := w }
        json_data := [], pcd_chunk_bytes := bs } =
    collectState fid T dt w (cs ++ [(ci, bs)]) := by
  unfold store_step
  rw [if_pos (by simp [collectState])]
  simp [storeMsg, collectState, bufGet, updateChunks, addChunk, hci]

theorem marker_step_collect (fid : Int) (hfid : 0 ≤ fid) (T w : Nat) (dt : String)
    (cs : List (Nat × Bytes)) (m : Msg) (hm : m.frame_id = fid) :
    marker_step (collectState fid T dt w cs) m =
      if m.marker then
        { reassembly_buffer := []
          current_collecting_fid := fid
          last_processed_fid := fid
          acks := [fid]
          emitted := [(fid, Entry.pcd T dt w cs)] }
      else collectState fid T dt w cs := by
  unfold marker_step
  have hc : (m.marker && (m.frame_id == (collectState fid T dt w cs).current_collecting_fid)) =
      m.marker := by
    simp [collectState, hm]
  rw [hc]
  cases hmk : m.marker
  · rw [if_neg (by simp), if_neg (by simp)]
  · rw [if_pos rfl, if_pos rfl, hm,
      pcf_of_single (show (collectState fid T dt w cs).reassembly_buffer =
        [(fid, Entry.pcd T dt w cs)] from rfl)]
    simp [collectState]
    omega

theorem rstep_first_chunk (fid : Int) (hfid : 0 ≤ fid) (T w r : Nat) (dt : String)
    (ci : Nat) (bs : Bytes) (mk : Bool) :
    rstep initState
      { frame_id := fid, marker := mk
        frag_info := some { total_chunks := T, chunk_index := ci, dtype := dt
                            shape_rows := r, shape_dim := w }
        json_data := [], pcd_chunk_bytes := bs } =
    if mk then
      { reassembly_buffer := []
        current_collecting_fid := fid
        last_processed_fid := fid
        acks := [fid]
        emitted := [(fid, Entry.pcd T dt w [(ci, bs)])] }
    else collectState fid T dt w [(ci, bs)] := by
  unfold rstep
  rw [if_neg (show ¬ (fid ≤ initState.last_processed_fid) from by
    simp [initState]; omega)]
  unfold rstep_body
  rw [trigger_next_init (by simpa using hfid),
    store_step_init_pcd fid T w r dt ci bs mk,
    marker_step_collect fid hfid T w dt [(ci, bs)] _ rfl]
  cases mk
  · exact evictLoop_eq_self (by norm_num [collectState, MAX_FRAME_LAG])
  · exact evictLoop_eq_self (by norm_num [MAX_FRAME_LAG])

theorem rstep_collect_chunk (fid : Int) (hfid : 0 ≤ fid) (T w r : Nat)
    (dt : String) (cs : List (Nat × Bytes)) (ci : Nat) (bs : Bytes) (mk : Bool)
    (hci : cs.any (fun q => q.1 == ci) = false) :
    rstep (collectState fid T dt w cs)
      { frame_id := fid, marker := mk
        frag_info := some { total_chunks := T, chunk_index := ci, dtype := dt
                            shape_rows := r, shape_dim := w }
        json_data := [], pcd_chunk_bytes := bs } =
    if mk then
      { reassembly_buffer := []
        current_collecting_fid := fid
        last_processed_fid := fid
        acks := [fid]
        emitted := [(fid, Entry.pcd T dt w (cs ++ [(ci, bs)]))] }
    else collectState fid T dt w (cs ++ [(ci, bs)]) := by
  unfold rstep
  rw [if_neg (show ¬ (fid ≤ (collectState fid T dt w cs).last_processed_fid) from by
    simp [collectState]; omega)]
  unfold rstep_body
  rw [trigger_next_eq_self (show ¬ (collectState fid T dt w cs).current_collecting_fid <
      fid from by simp [collectState]),
    store_step_collect fid T w r dt cs ci bs mk hci,
    marker_step_collect fid hfid T w dt (cs ++ [(ci, bs)]) _ rfl]
  cases mk
  · exact evictLoop_eq_self (by norm_num [collectState, MAX_FRAME_LAG])
  · exact evictLoop_eq_self (by norm_num [MAX_FRAME_LAG])

theorem sendFrameMsgs_eq_map (fid : Int) (rows : List Bytes) (dtype : String)
    (w : Nat) :
    sendFrameMsgs fid rows dtype w =
      (List.range ((rows.length + POINTS_PER_CHUNK - 1) / POINTS_PER_CHUNK)).map
        (chunkMsg fid rows dtype w) := rfl

theorem sendFrameMsgs_length (fid : Int) (rows : List Bytes) (dtype : String)
    (w : Nat) :
    (sendFrameMsgs fid rows dtype w).length =
      (rows.length + POINTS_PER_CHUNK - 1) / POINTS_PER_CHUNK := by
  rw [sendFrameMsgs_eq_map, List.length_map, List.length_range]

theorem sendFrameMsgs_get? (fid : Int) (rows : List Bytes) (dtype : String)
    (w : Nat) (k : Nat)
    (hk : k < (rows.length + POINTS_PER_CHUNK - 1) / POINTS_PER_CHUNK) :
    (sendFrameMsgs fid rows dtype w)[k]? = some (chunkMsg fid rows dtype w k) := by
  rw [sendFrameMsgs_eq_map]
  rw [List.getElem?_eq_getElem (by rw [List.length_map, List.length_range]; exact hk)]
  rw [List.getElem_map, List.getElem_range]

theorem roundtrip_fold (fid : Int) (rows : List Bytes) (dtype : String) (w : Nat)
    (hfid : 0 ≤ fid) (hne : rows ≠ []) :
    (sendFrameMsgs fid rows dtype w).foldl rstep initState =
      { reassembly_buffer := []
        current_collecting_fid := fid
        last_processed_fid := fid
        acks := [fid]
        emitted := [(fid, Entry.pcd
          ((rows.length + POINTS_PER_CHUNK - 1) / POINTS_PER_CHUNK) dtype w
          ((List.range ((rows.length + POINTS_PER_CHUNK - 1) / POINTS_PER_CHUNK)).map
            (fun i => (i, chunkPayload rows i))))] } := by
  obtain ⟨T, hT⟩ : ∃ t, (rows.length + POINTS_PER_CHUNK - 1) / POINTS_PER_CHUNK = t :=
    ⟨_, rfl⟩
  rw [hT]
  have hT0 : 0 < T := by
    have h2 : POINTS_PER_CHUNK ≤ rows.length + POINTS_PER_CHUNK - 1 := by
      have hl := List.length_pos.mpr hne
      simp only [POINTS_PER_CHUNK]
      omega
    have h3 := (Nat.one_le_div_iff
      (show 0 < POINTS_PER_CHUNK by simp [POINTS_PER_CHUNK])).mpr h2
    rw [hT] at h3
    omega
  have hlen : (sendFrameMsgs fid rows dtype w).length = T := by
    rw [sendFrameMsgs_length, hT]
  have hmsg : ∀ k : Nat, chunkMsg fid rows dtype w k =
      { frame_id := fid
        marker := (k == T - 1)
        frag_info := some
          { total_chunks := T
            chunk_index := k
            dtype := dtype
            shape_rows := ((rows.drop (k * POINTS_PER_CHUNK)).take
              (min ((k + 1) * POINTS_PER_CHUNK) rows.length -
                k * POINTS_PER_CHUNK)).length
            shape_dim := w }
        json_data := []
        pcd_chunk_bytes := chunkPayload rows k } := by
    intro k
    unfold chunkMsg
    rw [hT]
  have hstep : ∀ k, k < T →
      ((sendFrameMsgs fid rows dtype w).take (k + 1)).foldl rstep initState =
        rstep (((sendFrameMsgs fid rows dtype w).take k).foldl rstep initState)
          (chunkMsg fid rows dtype w k) := by
    intro k hk
    rw [List.take_succ, sendFrameMsgs_get? fid rows dtype w k (hT.symm ▸ hk)]
    rw [List.foldl_append]
    rfl
  have key : ∀ k, k ≤ T →
      ((sendFrameMsgs fid rows dtype w).take k).foldl rstep initState =
        (if k = 0 then initState
         else if k = T then
          { reassembly_buffer := []
            current_collecting_fid := fid
            last_processed_fid := fid
            acks := [fid]
            emitted := [(fid, Entry.pcd T dtype w
              ((List.range T).map (fun i => (i, chunkPayload rows i))))] }
         else collectState fid T dtype w
          ((List.range k).map (fun i => (i, chunkPayload rows i)))) := by
    intro k
    induction k with
    | zero =>
      intro _
      rw [List.take_zero, List.foldl_nil, if_pos rfl]
    | succ k ih =>
      intro hk1
      have hkT : k < T := by omega
      rw [hstep k hkT, ih (by omega)]
      by_cases hk0 : k = 0
      · subst hk0
        rw [if_pos (show (0 : Nat) = 0 from rfl), hmsg 0, rstep_first_chunk fid hfid]
        by_cases hT1 : T = 1
        · subst hT1
          rw [if_pos (show ((0 : Nat) == 1 - 1) = true by decide),
            if_neg (show ¬ ((0 : Nat) + 1 = 0) by omega),
            if_pos (show (0 : Nat) + 1 = 1 from rfl)]
          simp [List.range_succ]
        · rw [if_neg (show ¬ (((0 : Nat) == T - 1) = true) by
              simp only [beq_iff_eq]; omega),
            if_neg (show ¬ ((0 : Nat) + 1 = 0) by omega),
            if_neg (show ¬ ((0 : Nat) + 1 = T) by omega)]
          simp [collectState, List.range_succ]
      · rw [if_neg hk0, if_neg (show ¬ (k = T) by omega), hmsg k,
          rstep_collect_chunk fid hfid T w _ dtype _ k (chunkPayload rows k)
            (k == T - 1) (any_map_range_eq_false (chunkPayload rows) k)]
        by_cases hkT1 : k + 1 = T
        · rw [if_pos (show ((k : Nat) == T - 1) = true by
              simp only [beq_iff_eq]; omega),
            if_neg (show ¬ (k + 1 = 0) by omega),
            if_pos hkT1, ← hkT1]
          simp [List.range_succ]
        · rw [if_neg (show ¬ (((k : Nat) == T - 1) = true) by
              simp only [beq_iff_eq]; omega),
            if_neg (show ¬ (k + 1 = 0) by omega),
            if_neg hkT1]
          simp [collectState, List.range_succ]
  have h1 : sendFrameMsgs fid rows dtype w =
      (sendFrameMsgs fid rows dtype w).take T := by
    rw [← hlen, List.take_length]
  rw [h1, key T (le_refl T), if_neg (by omega), if_pos rfl]

theorem reassembled_payload (rows : List Bytes) :
    ((sortKeys (((List.range
        ((rows.length + POINTS_PER_CHUNK - 1) / POINTS_PER_CHUNK)).map
          (fun j => (j, chunkPayload rows j))).map Prod.fst)).map
      (fun i => lookupChunk ((List.range
        ((rows.length + POINTS_PER_CHUNK - 1) / POINTS_PER_CHUNK)).map
          (fun j => (j, chunkPayload rows j))) i)).flatten = rows.flatten := by
  obtain ⟨T, hT⟩ : ∃ t, (rows.length + POINTS_PER_CHUNK - 1) / POINTS_PER_CHUNK = t :=
    ⟨_, rfl⟩
  rw [hT, keys_map_range, sortKeys_of_sorted (sorted_range T)]
  rw [List.map_congr_left
    (fun i hi => lookupChunk_map_range (chunkPayload rows) T i (List.mem_range.mp hi))]
  rw [List.map_congr_left (l := List.range T)
    (fun i _ => show chunkPayload rows i =
        ((rows.drop (i * POINTS_PER_CHUNK)).take POINTS_PER_CHUNK).flatten from by
      unfold chunkPayload
      rw [slice_take_c])]
  rw [show (List.range T).map
      (fun i => ((rows.drop (i * POINTS_PER_CHUNK)).take POINTS_PER_CHUNK).flatten) =
      ((List.range T).map
        (fun i => (rows.drop (i * POINTS_PER_CHUNK)).take POINTS_PER_CHUNK)).map
        List.flatten from by rw [List.map_map]; rfl]
  rw [flatten_map_flatten]
  rw [flatten_range_take_drop POINTS_PER_CHUNK (by simp [POINTS_PER_CHUNK]) T rows ?_]
  rw [← hT]
  exact le_ceil_mul (by simp [POINTS_PER_CHUNK])

/-- **C2** (round-trip): a point-cloud frame with `N > 0` rows is
fragmented into `⌈N / POINTS_PER_CHUNK⌉` chunks — chunk `i` carries
`chunk_index = i`, `total_chunks` equal to the partition count, the
contiguous slice `rows[start:end]` serialized to bytes, and the marker
set exactly on the last chunk — and delivering all chunks in order
with no loss to a fresh receiver finalizes exactly one frame whose
reassembled payload is bit-for-bit the original row sequence, with
`received_chunks = total_chunks` and `complete = true`. -/
theorem C2_fragment_reassemble_roundtrip (fid : Int) (rows : List Bytes)
    (dtype : String) (w : Nat) (hfid : 0 ≤ fid) (hne : rows ≠ []) :
    (sendFrameMsgs fid rows dtype w).length =
      (rows.length + POINTS_PER_CHUNK - 1) / POINTS_PER_CHUNK ∧
    (∀ (i : Nat) (hi : i < (sendFrameMsgs fid rows dtype w).length),
      ∃ fi : FragInfo,
        ((sendFrameMsgs fid rows dtype w).get ⟨i, hi⟩).frag_info = some fi ∧
        fi.chunk_index = i ∧
        fi.total_chunks = (rows.length + POINTS_PER_CHUNK - 1) / POINTS_PER_CHUNK ∧
        (((sendFrameMsgs fid rows dtype w).get ⟨i, hi⟩).marker = true ↔
          i = (rows.length + POINTS_PER_CHUNK - 1) / POINTS_PER_CHUNK - 1) ∧
        ((sendFrameMsgs fid rows dtype w).get ⟨i, hi⟩).pcd_chunk_bytes =
          ((rows.drop (i * POINTS_PER_CHUNK)).take
            (min ((i + 1) * POINTS_PER_CHUNK) rows.length -
              i * POINTS_PER_CHUNK)).flatten) ∧
    ∃ (e : Entry) (res : FrameResult),
      ((sendFrameMsgs fid rows dtype w).foldl rstep initState).emitted = [(fid, e)] ∧
      process_frame_data e = some res ∧
      res.payload = rows.flatten ∧
      res.received_chunks =
        (rows.length + POINTS_PER_CHUNK - 1) / POINTS_PER_CHUNK ∧
      res.total_chunks = (rows.length + POINTS_PER_CHUNK - 1) / POINTS_PER_CHUNK ∧
      res.complete = true := by
  refine ⟨sendFrameMsgs_length fid rows dtype w, ?_, ?_⟩
  · intro i hi
    have hiT : i < (rows.length + POINTS_PER_CHUNK - 1) / POINTS_PER_CHUNK := by
      rw [← sendFrameMsgs_length fid rows dtype w]
      exact hi
    have hgeti : (sendFrameMsgs fid rows dtype w).get ⟨i, hi⟩ =
        chunkMsg fid rows dtype w i := by
      have h2 := sendFrameMsgs_get? fid rows dtype w i hiT
      have h3 := List.getElem?_eq_getElem hi
      rw [h2] at h3
      rw [List.get_eq_getElem]
      exact (Option.some.inj h3).symm
    rw [hgeti]
    refine ⟨_, rfl, rfl, rfl, ?_, rfl⟩
    show ((i == (rows.length + POINTS_PER_CHUNK - 1) / POINTS_PER_CHUNK - 1) = true) ↔ _
    exact beq_iff_eq
  · have hnil : ((List.range
        ((rows.length + POINTS_PER_CHUNK - 1) / POINTS_PER_CHUNK)).map
        (fun i => (i, chunkPayload rows i))) ≠ [] := by
      have hT0 : 0 < (rows.length + POINTS_PER_CHUNK - 1) / POINTS_PER_CHUNK := by
        have h2 : POINTS_PER_CHUNK ≤ rows.length + POINTS_PER_CHUNK - 1 := by
          have hl := List.length_pos.mpr hne
          simp only [POINTS_PER_CHUNK]
          omega
        have h3 := (Nat.one_le_div_iff
          (show 0 < POINTS_PER_CHUNK by simp [POINTS_PER_CHUNK])).mpr h2
        omega
      simp only [ne_eq, List.map_eq_nil_iff, List.range_eq_nil]
      omega
    refine ⟨Entry.pcd ((rows.length + POINTS_PER_CHUNK - 1) / POINTS_PER_CHUNK)
        dtype w ((List.range
          ((rows.length + POINTS_PER_CHUNK - 1) / POINTS_PER_CHUNK)).map
          (fun i => (i, chunkPayload rows i))), _, ?_,
      process_frame_data_pcd _ dtype w _ hnil, ?_, ?_, rfl, ?_⟩
    · rw [roundtrip_fold fid rows dtype w hfid hne]
    · exact reassembled_payload rows
    · simp
    · simp

/-- Witness for C2: a 3-row frame round-trips through one chunk. -/
theorem C2_witness :
    ((0 : Int) ≤ (0 : Int) ∧ ([[1], [2], [3]] : List Bytes) ≠ []) ∧
    ∃ (e : Entry) (res : FrameResult),
      ((sendFrameMsgs 0 [[1], [2], [3]] "float32" 4).foldl rstep
        initState).emitted = [((0 : Int), e)] ∧
      process_frame_data e = some res ∧
      res.payload = ([[1], [2], [3]] : List Bytes).flatten ∧
      res.complete = true := by
  have h := C2_fragment_reassemble_roundtrip 0 [[1], [2], [3]] "float32" 4
    (by decide) (by decide)
  obtain ⟨h1, h2, e, res, he, hp, hpay, hrec, htot, hcomp⟩ := h
  exact ⟨⟨by decide, by decide⟩, e, res, he, hp, hpay, hcomp⟩
